import Mathlib

/-!
# Capability auto-detection (`pkg/resource/detector/detector.go`)

A shallow embedding of the Detector: the registration table `crds` and the
three registration methods, the discovery query `resourceExists`, one run of
the detection loop `autoDetectCapabilities`, `Start`, `Stop`, and the
background task that `Start` launches.

Conventions of the embedding

* A Go `map[runtime.Object]trigger` is an association list whose keys are
  pairwise distinct (`WellFormed`); the order in which `range` enumerates the
  map is not fixed by Go, so a run of the loop takes the enumeration as an
  argument (any permutation of the table).
* A `runtime.Object` map key is an interface value holding a pointer: it is
  modelled by the address of the object together with the GroupVersionKind
  that `GetObjectKind().GroupVersionKind()` returns for it.
* A `trigger` is a callback whose body is outside the repository. It is
  identified by a label, and calling it appends `(trigger, object)` to the log
  of invocations; the callback is taken not to touch the capability state.
* `dc.ServerResources()` is an external call that is issued once per
  enumerated entry; the value it returns while the loop is at entry `crd` is
  `(dc crd).ServerResources`, so answers may differ from entry to entry and
  from tick to tick.
* `time.Duration` is a 64-bit signed integer: an `Int` reduced by `wrapInt64`.
* The goroutine of `Start`, the timer and the caller of `Stop` are interleaved
  as events of a step function (`Running.step`); a run of the loop is one step.
* Where the behaviour of the callbacks matters (a panic, a change of the
  Detector) the loop is taken with the callbacks as a parameter
  (`autoDetectCapabilitiesCb`); its capability state and log are those of the
  plain loop on the part of the enumeration it gets through.
-/

namespace detector

/-! ## Kubernetes data types used by the detector -/

/-- The type `schema.GroupVersionKind`. -/
structure GroupVersionKind where
  Group : String
  Version : String
  Kind : String
deriving DecidableEq, Repr

/-- The type `schema.GroupVersion`. -/
structure GroupVersion where
  Group : String
  Version : String
deriving DecidableEq, Repr

/-- The method `GroupVersionKind.GroupVersion()` of apimachinery. -/
def GroupVersionKind.GroupVersion (gvk : GroupVersionKind) : GroupVersion :=
  { Group := gvk.Group, Version := gvk.Version }

/-- The method `GroupVersion.String()` of apimachinery: `group/version`, or the
bare version when the group is empty. -/
def GroupVersion.String (gv : GroupVersion) : String :=
  if gv.Group.length > 0 then gv.Group ++ "/" ++ gv.Version else gv.Version

/-- A `runtime.Object` used as a map key: the address of the object and the
GroupVersionKind its `GetObjectKind()` reports. -/
structure Object where
  addr : Nat
  GroupVersionKind : GroupVersionKind
deriving DecidableEq, Repr

/-- The type `trigger func(runtime.Object)`, identified by a label. -/
structure trigger where
  label : Nat
deriving DecidableEq, Repr

/-- The type `metav1.APIResource`; only `Kind` is read by the detector. -/
structure APIResource where
  Kind : String
deriving DecidableEq, Repr

/-- The type `metav1.APIResourceList`. -/
structure APIResourceList where
  GroupVersion : String
  APIResources : List APIResource
deriving DecidableEq, Repr

/-- A Go `error` value: `none` is `nil`. -/
abbrev error := Option String

/-- The discovery client at the moment of one call: what `ServerResources()`
returns, a list of API resource lists together with an error. -/
structure DiscoveryInterface where
  ServerResources : List APIResourceList × error

/-! ## The capability state -/

/-- Modelled from the spec: the state manager returned by `GetStateManager()`
and its methods, which `autoDetectCapabilities` calls and which are defined in
another file of the package. The spec describes the state as a process-wide
mapping from a capability identifier to a boolean fired flag,
with `GetState(capabilityID) -> bool` and `SetState(capabilityID, bool)`. -/
abbrev StateManager := String → Bool

/-- Modelled from the spec: the state manager as lazily created on first
access, with no capability fired. -/
def GetStateManager : StateManager := fun _ => false

/-- Modelled from the spec: `GetState(capabilityID) -> bool`. -/
def GetState (sm : StateManager) (key : String) : Bool := sm key

/-- Modelled from the spec: `SetState(capabilityID, bool)`. -/
def SetState (sm : StateManager) (key : String) (value : Bool) : StateManager :=
  fun k => if k = key then value else sm k

/-! ## The registration table -/

/-- The field `crds map[runtime.Object]trigger`. -/
abbrev Crds := List (Object × trigger)

/-- Keys of a Go map are pairwise distinct. -/
def WellFormed (crds : Crds) : Prop := (crds.map Prod.fst).Nodup

instance (crds : Crds) : Decidable (WellFormed crds) := by
  unfold WellFormed; infer_instance

/-- Map lookup `crds[crd]`. -/
def lookup (crds : Crds) (crd : Object) : Option trigger :=
  (crds.find? (fun e => decide (e.1 = crd))).map Prod.snd

/-- The method `AddCRDTrigger`: `d.crds[crd] = trigger`. An existing key keeps its
place and gets the new trigger, a new key is added. -/
def AddCRDTrigger : Crds → Object → trigger → Crds
  | [], crd, t => [(crd, t)]
  | e :: rest, crd, t =>
    if e.1 = crd then (crd, t) :: rest else e :: AddCRDTrigger rest crd t

/-- The method `AddCRDsTrigger`: `for _, crd := range crds { d.AddCRDTrigger(crd, trigger) }`,
a loop over a slice, in slice order. -/
def AddCRDsTrigger (table : Crds) (crds : List Object) (t : trigger) : Crds :=
  crds.foldl (fun acc crd => AddCRDTrigger acc crd t) table

/-- The method `AddCRDsWithTriggers`:
`for crd, trigger := range crdsTriggers { d.AddCRDTrigger(crd, trigger) }`, with `order`
the enumeration of the argument map that `range` produces. -/
def AddCRDsWithTriggers (table : Crds) (order : Crds) : Crds :=
  order.foldl (fun acc e => AddCRDTrigger acc e.1 e.2) table

/-! ## The discovery query -/

/-- The inner loop of `resourceExists`: `for _, r := range apiList.APIResources`. -/
def kindListed (rs : List APIResource) (kind : String) : Bool :=
  match rs with
  | [] => false
  | r :: rest => if r.Kind = kind then true else kindListed rest kind

/-- The outer loop of `resourceExists`: `for _, apiList := range apiLists`. -/
def scanLists (apiLists : List APIResourceList) (apiGroupVersion kind : String) : Bool :=
  match apiLists with
  | [] => false
  | apiList :: rest =>
    if apiList.GroupVersion = apiGroupVersion then
      if kindListed apiList.APIResources kind then true
      else scanLists rest apiGroupVersion kind
    else scanLists rest apiGroupVersion kind

/-- The method `resourceExists(dc, apiGroupVersion, kind) (bool, error)`. -/
def resourceExists (dc : DiscoveryInterface) (apiGroupVersion kind : String) : Bool × error :=
  match dc.ServerResources with
  | (_, some err) => (false, some err)
  | (apiLists, none) => (scanLists apiLists apiGroupVersion kind, none)

/-! ## One run of the detection loop -/

/-- What the detection loop acts on: the shared capability state and the log of
trigger invocations made so far, oldest first. -/
structure World where
  stateManager : StateManager
  invoked : List (trigger × Object)

/-- The body of the `range d.crds` loop of `autoDetectCapabilities` for one entry. -/
def autoDetectEntry (dc : Object → DiscoveryInterface) (w : World) (e : Object × trigger) : World :=
  let crdGVK := e.1.GroupVersionKind
  let found := (resourceExists (dc e.1) crdGVK.GroupVersion.String crdGVK.Kind).1
  if found then
    if GetState w.stateManager crdGVK.Kind != true then
      { stateManager := SetState w.stateManager crdGVK.Kind true,
        invoked := w.invoked ++ [(e.2, e.1)] }
    else w
  else w

/-- The method `autoDetectCapabilities`, with `order` the enumeration of `d.crds`
that `range` produces in this run. -/
def autoDetectCapabilities (dc : Object → DiscoveryInterface) (order : Crds) (w : World) : World :=
  order.foldl (autoDetectEntry dc) w

/-- Whether the query issued for `crd` in a run answers that its kind is served:
the boolean that `autoDetectCapabilities` binds to `resourceExists`. -/
def present (dc : Object → DiscoveryInterface) (crd : Object) : Bool :=
  (resourceExists (dc crd) crd.GroupVersionKind.GroupVersion.String crd.GroupVersionKind.Kind).1

/-- The number of invocations in a log whose descriptor has kind `kind`. -/
def countKind (log : List (trigger × Object)) (kind : String) : Nat :=
  (log.filter (fun c => decide (c.2.GroupVersionKind.Kind = kind))).length

/-! ## Sequences of ticks -/

/-- One tick: the provider as the run finds it, and the enumeration of the table
used by the run. -/
structure Tick where
  dc : Object → DiscoveryInterface
  order : Crds

/-- Consecutive runs of `autoDetectCapabilities`, as made one after the other by
the background task of `Start`. -/
def runTicks (ticks : List Tick) (w : World) : World :=
  ticks.foldl (fun acc t => autoDetectCapabilities t.dc t.order acc) w

/-- The invocations made by each tick of a sequence, tick by tick, starting from
capability state `sm`. -/
def tickLog : List Tick → StateManager → List (List (trigger × Object))
  | [], _ => []
  | t :: ts, sm =>
    (autoDetectCapabilities t.dc t.order ⟨sm, []⟩).invoked ::
      tickLog ts (autoDetectCapabilities t.dc t.order ⟨sm, []⟩).stateManager

/-- Whether the provider reports `crd` present in tick number `i` (from 0) of a
sequence; `false` past the end of the sequence. -/
def presentAt : List Tick → Object → Nat → Bool
  | [], _, _ => false
  | t :: _, crd, 0 => present t.dc crd
  | _ :: ts, crd, i + 1 => presentAt ts crd i

/-! ## The timer and `Start` -/

/-- The type `time.Duration`: a signed 64-bit count of nanoseconds. -/
abbrev Duration := Int

/-- Reduction of an integer to the signed 64-bit range (Go integer overflow). -/
def wrapInt64 (x : Int) : Int :=
  (x + 9223372036854775808) % 18446744073709551616 - 9223372036854775808

/-- The constant `time.Second`. -/
def Second : Duration := 1000000000

/-- A `time.Ticker`: its period and whether `Stop` has been called on it. -/
structure Ticker where
  period : Duration
  stopped : Bool
deriving DecidableEq, Repr

/-- The function `time.NewTicker(d)`: it panics (`none`) unless `d` is positive. -/
def NewTicker (d : Duration) : Option Ticker :=
  if d ≤ 0 then none else some { period := d, stopped := false }

/-- A `chan schema.GroupVersionKind`: buffered elements, capacity, closed flag. -/
structure Channel where
  buffer : List GroupVersionKind
  capacity : Nat
  closed : Bool
deriving DecidableEq, Repr

/-- The struct `Detector`. The field `dc` is the provider handed to each run, see
`Tick`; `ticker` is `none` for a nil pointer. -/
structure Detector where
  ticker : Option Ticker
  SubscriptionChannel : Channel
  crds : Crds
deriving DecidableEq, Repr

/-- The constructor `NewAutoDetect`. -/
def NewAutoDetect : Detector :=
  { ticker := none,
    SubscriptionChannel := { buffer := [], capacity := 1, closed := false },
    crds := [] }

/-- The method `Start`, up to the launch of the background task:
`d.ticker = time.NewTicker(interval * time.Second)`. The product is a
`time.Duration` product and wraps at 64 bits; `none` is the panic of `NewTicker`. -/
def Start (d : Detector) (interval : Duration) : Option Detector :=
  match NewTicker (wrapInt64 (interval * Second)) with
  | none => none
  | some tk => some { d with ticker := some tk }

/-! ## `Stop` and histories of lifecycle calls -/

/-- The run-time panics of the lifecycle calls. -/
inductive Fault where
  | nonPositiveInterval
  | nilTicker
  | closeOfClosedChannel
deriving DecidableEq, Repr

/-- The method `Stop`: `d.ticker.Stop()` and then `close(d.SubscriptionChannel)`.
The result is the Detector as the call leaves it and the panic, if any:
`d.ticker.Stop()` dereferences a nil pointer when `Start` never set the field,
and the `close` of a closed channel panics after the timer was halted. -/
def Stop (d : Detector) : Detector × Option Fault :=
  match d.ticker with
  | none => (d, some Fault.nilTicker)
  | some tk =>
    if d.SubscriptionChannel.closed then
      ({ d with ticker := some { tk with stopped := true } }, some Fault.closeOfClosedChannel)
    else
      ({ d with ticker := some { tk with stopped := true },
                SubscriptionChannel := { d.SubscriptionChannel with closed := true } }, none)

/-- A lifecycle call made on a Detector. -/
inductive Call where
  | start (interval : Duration)
  | stop
deriving DecidableEq, Repr

/-- One call of a history: the Detector after it, and the panic it raised, if any.
A `Start` whose `NewTicker` panics leaves the Detector as it was. -/
def applyCall (d : Detector) : Call → Detector × Option Fault
  | Call.start interval =>
    match Start d interval with
    | none => (d, some Fault.nonPositiveInterval)
    | some d2 => (d2, none)
  | Call.stop => Stop d

/-- The Detector after a history of calls, each panic being recovered by the caller. -/
def runCalls (d : Detector) (history : List Call) : Detector :=
  history.foldl (fun acc c => (applyCall acc c).1) d

/-- Whether some `Start` of the history set the timer (its `NewTicker` did not panic). -/
def timerSet (history : List Call) : Bool :=
  history.any (fun c =>
    match c with
    | Call.start interval => decide (0 < wrapInt64 (interval * Second))
    | Call.stop => false)

/-- Whether some `Stop` of the history closed the channel: a `Stop` made after a
`Start` had set the timer. -/
def closedByStop : List Call → Bool
  | [] => false
  | Call.stop :: rest => closedByStop rest
  | Call.start interval :: rest =>
    if 0 < wrapInt64 (interval * Second) then rest.any (fun c => decide (c = Call.stop))
    else closedByStop rest

/-! ## The background task -/

/-- Where the goroutine launched by `Start` stands: about to make its first,
immediate call of `autoDetectCapabilities`, or in `for range d.ticker.C`. -/
inductive Pc where
  | immediate
  | waiting
deriving DecidableEq, Repr

/-- A started Detector with its background task. `buffered` counts the values
sitting in `d.ticker.C`, a channel of capacity 1; `runs` counts the calls of
`autoDetectCapabilities` made by the task and `consumed` the values it received
from `d.ticker.C`. -/
structure Running where
  detector : Detector
  buffered : Nat
  pc : Pc
  world : World
  runs : Nat
  consumed : Nat

/-- What can happen to a started Detector: the timer fires, the owner calls
`Stop`, or the task takes its next step (with the provider answers and the
enumeration the run would see). -/
inductive Event where
  | expiry
  | stop
  | task (t : Tick)

/-- One event on a started Detector. A firing timer sends on `d.ticker.C` without
blocking, unless the ticker was stopped (a full channel drops the value). The
task first runs the detection once, then runs it once per value received from
`d.ticker.C`, blocking while the channel is empty. `Stop` is the method `Stop`;
it does not touch the task. What becomes of a value that the timer sent before
`Stop` and the task has not received yet depends on the Go release: with
`staleTicks` true it stays receivable (Go before 1.23), with `staleTicks` false
it is discarded by `d.ticker.Stop()` (Go 1.23 and later). -/
def Running.step (staleTicks : Bool) (s : Running) : Event → Running
  | Event.expiry =>
    match s.detector.ticker with
    | none => s
    | some tk =>
      if tk.stopped then s
      else if s.buffered < 1 then { s with buffered := s.buffered + 1 }
      else s
  | Event.stop =>
    { s with detector := (Stop s.detector).1,
             buffered := if staleTicks || s.detector.ticker.isNone then s.buffered else 0 }
  | Event.task t =>
    match s.pc with
    | Pc.immediate =>
      { s with pc := Pc.waiting,
               world := autoDetectCapabilities t.dc t.order s.world,
               runs := s.runs + 1 }
    | Pc.waiting =>
      if 0 < s.buffered then
        { s with buffered := s.buffered - 1,
                 consumed := s.consumed + 1,
                 world := autoDetectCapabilities t.dc t.order s.world,
                 runs := s.runs + 1 }
      else s

/-- A sequence of events on a started Detector. -/
def Running.run (staleTicks : Bool) (s : Running) (events : List Event) : Running :=
  events.foldl (Running.step staleTicks) s

/-- The ticks of the task events of a sequence at which the task is not blocked:
its first step, and every step taken with a value in `d.ticker.C`. -/
def ranTicks (staleTicks : Bool) : Running → List Event → List Tick
  | _, [] => []
  | s, Event.task t :: rest =>
    if s.pc = Pc.immediate ∨ 0 < s.buffered then
      t :: ranTicks staleTicks (s.step staleTicks (Event.task t)) rest
    else ranTicks staleTicks (s.step staleTicks (Event.task t)) rest
  | s, Event.expiry :: rest => ranTicks staleTicks (s.step staleTicks Event.expiry) rest
  | s, Event.stop :: rest => ranTicks staleTicks (s.step staleTicks Event.stop) rest

/-- The events in which the timer fires and the task receives the value, once for
each tick of the list. -/
def expiriesReceived : List Tick → List Event
  | [] => []
  | t :: ts => Event.expiry :: Event.task t :: expiriesReceived ts

/-- The state right after `Start` returned: the timer is set, `d.ticker.C` is empty
and the goroutine has been launched but has not run yet. `none` when `Start`
panics. -/
def launch (d : Detector) (interval : Duration) (w : World) : Option Running :=
  match Start d interval with
  | none => none
  | some d2 =>
    some { detector := d2, buffered := 0, pc := Pc.immediate, world := w, runs := 0,
           consumed := 0 }

/-! ## Callbacks with effects -/

/-- What calling a trigger does besides being logged: the Detector as the callback
leaves it, and whether the callback panics. -/
abbrev Callbacks := trigger → Object → Detector → Detector × Bool

/-- A Detector together with the capability state and the log. -/
structure System where
  detector : Detector
  world : World

/-- The body of the `range d.crds` loop for one entry, with the callback run:
the capability is marked by `SetState` first, then `trigger(crd)` is called. The
boolean tells whether the call panicked. -/
def autoDetectEntryCb (cb : Callbacks) (dc : Object → DiscoveryInterface) (s : System)
    (e : Object × trigger) : System × Bool :=
  let crdGVK := e.1.GroupVersionKind
  let found := (resourceExists (dc e.1) crdGVK.GroupVersion.String crdGVK.Kind).1
  if found then
    if GetState s.world.stateManager crdGVK.Kind != true then
      let marked : World :=
        { stateManager := SetState s.world.stateManager crdGVK.Kind true,
          invoked := s.world.invoked }
      let called := cb e.2 e.1 s.detector
      ({ detector := called.1,
         world := { stateManager := marked.stateManager,
                    invoked := marked.invoked ++ [(e.2, e.1)] } }, called.2)
    else (s, false)
  else (s, false)

/-- The method `autoDetectCapabilities` with the callbacks run: a panic of a
callback is not recovered and ends the run at that entry. -/
def autoDetectCapabilitiesCb (cb : Callbacks) (dc : Object → DiscoveryInterface) :
    Crds → System → System × Bool
  | [], s => (s, false)
  | e :: rest, s =>
    if (autoDetectEntryCb cb dc s e).2 then ((autoDetectEntryCb cb dc s e).1, true)
    else autoDetectCapabilitiesCb cb dc rest (autoDetectEntryCb cb dc s e).1

/-- Consecutive runs with the callbacks run, each run starting from what the one
before left, whether it ended by a panic or not. -/
def runTicksCb (cb : Callbacks) (ticks : List Tick) (s : System) : System :=
  ticks.foldl (fun acc t => (autoDetectCapabilitiesCb cb t.dc t.order acc).1) s

/-! ## The state a callback is called in -/

/-- The body of the `range d.crds` loop for one entry, on the capability state and
a log that records, with each call `trigger(crd)`, what `GetState` answers for
the kind of `crd` in the state the call is made in, that is, after the
`SetState` of the line before. -/
def autoDetectEntryObs (dc : Object → DiscoveryInterface)
    (w : StateManager × List ((trigger × Object) × Bool)) (e : Object × trigger) :
    StateManager × List ((trigger × Object) × Bool) :=
  let crdGVK := e.1.GroupVersionKind
  let found := (resourceExists (dc e.1) crdGVK.GroupVersion.String crdGVK.Kind).1
  if found then
    if GetState w.1 crdGVK.Kind != true then
      let marked := SetState w.1 crdGVK.Kind true
      (marked, w.2 ++ [((e.2, e.1), GetState marked crdGVK.Kind)])
    else w
  else w

/-- The method `autoDetectCapabilities` with the state at each call recorded. -/
def autoDetectCapabilitiesObs (dc : Object → DiscoveryInterface) (order : Crds)
    (sm : StateManager) : StateManager × List ((trigger × Object) × Bool) :=
  order.foldl (autoDetectEntryObs dc) (sm, [])

/-! ## Concrete data used in the examples -/

/-- A descriptor of kind `Foo` in group `g1`. -/
def fooA : Object := { addr := 1, GroupVersionKind := { Group := "g1", Version := "v1", Kind := "Foo" } }

/-- A second descriptor of kind `Foo`, in group `g2`. -/
def fooB : Object := { addr := 2, GroupVersionKind := { Group := "g2", Version := "v1", Kind := "Foo" } }

/-- A descriptor of kind `Bar`. -/
def barA : Object := { addr := 3, GroupVersionKind := { Group := "g1", Version := "v1", Kind := "Bar" } }

/-- A second descriptor of kind `Bar`, held by another Detector. -/
def barB : Object := { addr := 4, GroupVersionKind := { Group := "g1", Version := "v1", Kind := "Bar" } }

/-- A provider that serves `Foo` in `g1/v1` and in `g2/v1`, and `Bar` in `g1/v1`. -/
def dcAll : Object → DiscoveryInterface := fun _ =>
  { ServerResources :=
      ([{ GroupVersion := "g1/v1", APIResources := [{ Kind := "Foo" }, { Kind := "Bar" }] },
        { GroupVersion := "g2/v1", APIResources := [{ Kind := "Foo" }] }], none) }

/-- Labels of the triggers used in the examples. -/
def t1 : trigger := { label := 1 }

/-- A second trigger. -/
def t2 : trigger := { label := 2 }

/-- A third trigger. -/
def t3 : trigger := { label := 3 }

/-- A table with two descriptors of the same kind `Foo`. -/
def tableFoo : Crds := [(fooA, t1), (fooB, t2)]

/-- A table with two descriptors of different kinds. -/
def tableMixed : Crds := [(fooA, t1), (barA, t3)]

/-- A provider that serves nothing. -/
def dcNone : Object → DiscoveryInterface := fun _ => { ServerResources := ([], none) }

/-- A provider whose every call fails, returning a list along with the error. -/
def dcErr : Object → DiscoveryInterface := fun _ =>
  { ServerResources :=
      ([{ GroupVersion := "g1/v1", APIResources := [{ Kind := "Foo" }] }], some "timeout") }

/-- A third descriptor of kind `Foo`, in group `g3`. -/
def fooC : Object := { addr := 5, GroupVersionKind := { Group := "g3", Version := "v1", Kind := "Foo" } }

/-- A provider that serves `Foo` in `g1/v1`, `g2/v1` and `g3/v1`. -/
def dcFoo : Object → DiscoveryInterface := fun _ =>
  { ServerResources :=
      ([{ GroupVersion := "g1/v1", APIResources := [{ Kind := "Foo" }] },
        { GroupVersion := "g2/v1", APIResources := [{ Kind := "Foo" }] },
        { GroupVersion := "g3/v1", APIResources := [{ Kind := "Foo" }] }], none) }

/-- Callbacks that do nothing and never panic. -/
def cbQuiet : Callbacks := fun _ _ d => (d, false)

/-- Callbacks of which `t1` panics. -/
def cbPanic : Callbacks := fun t _ d => (d, decide (t = t1))

/-- A Detector with `Foo` and `Bar` registered, right after `Start(1)` returned. -/
def startedMixed : Running :=
  { detector := { NewAutoDetect with
      crds := tableMixed, ticker := some { period := 1000000000, stopped := false } },
    buffered := 0, pc := Pc.immediate, world := ⟨GetStateManager, []⟩, runs := 0,
    consumed := 0 }

/-- A table in which one trigger is registered for `Foo` and for `Bar`, as
`AddCRDsTrigger` leaves it. -/
def tableShared : Crds := [(fooA, t1), (barA, t1)]

/-- Callbacks of which `t1` panics when called with `fooA`. -/
def cbPanicOnFoo : Callbacks := fun t o d => (d, decide (t = t1) && decide (o = fooA))

/-! ## Lemmas on one run of the loop -/

theorem autoDetectEntry_eq (dc : Object → DiscoveryInterface) (w : World) (e : Object × trigger) :
    autoDetectEntry dc w e =
      if present dc e.1 = true ∧ w.stateManager e.1.GroupVersionKind.Kind = false then
        { stateManager := SetState w.stateManager e.1.GroupVersionKind.Kind true,
          invoked := w.invoked ++ [(e.2, e.1)] }
      else w := by
  unfold autoDetectEntry present GetState
  by_cases h1 : (resourceExists (dc e.1) e.1.GroupVersionKind.GroupVersion.String
      e.1.GroupVersionKind.Kind).1 = true
  · by_cases h2 : w.stateManager e.1.GroupVersionKind.Kind = true
    · simp [h1, h2]
    · simp at h2
      simp [h1, h2]
  · simp [h1]

theorem autoDetectCapabilities_nil (dc : Object → DiscoveryInterface) (w : World) :
    autoDetectCapabilities dc [] w = w := rfl

theorem autoDetectCapabilities_cons (dc : Object → DiscoveryInterface) (e : Object × trigger)
    (rest : Crds) (w : World) :
    autoDetectCapabilities dc (e :: rest) w =
      autoDetectCapabilities dc rest (autoDetectEntry dc w e) := rfl

/-- The entry `e` counts towards kind `k`: it is reported present and has kind `k`. -/
theorem entry_state (dc : Object → DiscoveryInterface) (w : World) (e : Object × trigger)
    (k : String) :
    (autoDetectEntry dc w e).stateManager k =
      (w.stateManager k || (present dc e.1 && decide (e.1.GroupVersionKind.Kind = k))) := by
  rw [autoDetectEntry_eq]
  by_cases hp : present dc e.1 = true
  · by_cases hs : w.stateManager e.1.GroupVersionKind.Kind = false
    · by_cases hk : e.1.GroupVersionKind.Kind = k
      · subst hk
        simp [hp, hs, SetState]
      · have hk2 : ¬ k = e.1.GroupVersionKind.Kind := fun h => hk h.symm
        simp [hp, hs, SetState, hk, hk2]
    · simp at hs
      by_cases hk : e.1.GroupVersionKind.Kind = k
      · subst hk
        simp [hp, hs]
      · simp [hp, hs, hk]
  · simp [hp]

/-- The capability state after a run: a kind is fired when it was fired before or
some enumerated entry of that kind was reported present. -/
theorem run_state (dc : Object → DiscoveryInterface) (order : Crds) (w : World) (k : String) :
    (autoDetectCapabilities dc order w).stateManager k =
      (w.stateManager k ||
        order.any (fun e => present dc e.1 && decide (e.1.GroupVersionKind.Kind = k))) := by
  induction order generalizing w with
  | nil => simp [autoDetectCapabilities_nil]
  | cons e rest ih =>
    rw [autoDetectCapabilities_cons, ih, entry_state]
    simp [Bool.or_assoc]

theorem run_state_mono (dc : Object → DiscoveryInterface) (order : Crds) (w : World) (k : String)
    (h : w.stateManager k = true) : (autoDetectCapabilities dc order w).stateManager k = true := by
  rw [run_state, h]; rfl

/-- The log after a run extends the log before it by the invocations of the run,
which depend on the capability state only. -/
theorem run_invoked (dc : Object → DiscoveryInterface) (order : Crds) (w : World) :
    (autoDetectCapabilities dc order w).invoked =
      w.invoked ++ (autoDetectCapabilities dc order ⟨w.stateManager, []⟩).invoked ∧
    (autoDetectCapabilities dc order w).stateManager =
      (autoDetectCapabilities dc order ⟨w.stateManager, []⟩).stateManager := by
  induction order generalizing w with
  | nil => simp [autoDetectCapabilities_nil]
  | cons e rest ih =>
    rw [autoDetectCapabilities_cons, autoDetectCapabilities_cons]
    have h1 := ih (autoDetectEntry dc w e)
    have h2 := ih (autoDetectEntry dc ⟨w.stateManager, []⟩ e)
    rw [h1.1, h1.2, h2.1, h2.2]
    rw [autoDetectEntry_eq, autoDetectEntry_eq]
    by_cases hc : present dc e.1 = true ∧ w.stateManager e.1.GroupVersionKind.Kind = false
    · simp [hc]
    · simp [hc]

/-- Every invocation made by a run is of an enumerated entry that was reported
present and whose kind was not fired when the run began. -/
theorem run_invoked_sound (dc : Object → DiscoveryInterface) (order : Crds) (w : World)
    (c : trigger × Object) (hc : c ∈ (autoDetectCapabilities dc order w).invoked) :
    c ∈ w.invoked ∨
      ((c.2, c.1) ∈ order ∧ present dc c.2 = true ∧
        w.stateManager c.2.GroupVersionKind.Kind = false) := by
  induction order generalizing w with
  | nil => left; simpa [autoDetectCapabilities_nil] using hc
  | cons e rest ih =>
    rw [autoDetectCapabilities_cons] at hc
    rcases ih _ hc with h | ⟨hm, hp, hs⟩
    · rw [autoDetectEntry_eq] at h
      by_cases hf : present dc e.1 = true ∧ w.stateManager e.1.GroupVersionKind.Kind = false
      · simp only [hf, and_self, if_true, List.mem_append, List.mem_singleton] at h
        rcases h with h | h
        · left; exact h
        · right
          subst h
          exact ⟨by simp, hf.1, hf.2⟩
      · rw [if_neg hf] at h
        left; exact h
    · right
      refine ⟨List.mem_cons_of_mem _ hm, hp, ?_⟩
      rw [entry_state] at hs
      simp only [Bool.or_eq_false_iff] at hs
      exact hs.1

/-- The number of invocations a run makes for descriptors of kind `k`: one when
`k` was not fired and some enumerated entry of kind `k` is reported present,
none otherwise. -/
theorem run_kind_count (dc : Object → DiscoveryInterface) (order : Crds) (w : World) (k : String) :
    ((autoDetectCapabilities dc order w).invoked.filter
        (fun c => decide (c.2.GroupVersionKind.Kind = k))).length =
      (w.invoked.filter (fun c => decide (c.2.GroupVersionKind.Kind = k))).length +
        (if w.stateManager k = false ∧
            order.any (fun e => present dc e.1 && decide (e.1.GroupVersionKind.Kind = k)) = true
          then 1 else 0) := by
  induction order generalizing w with
  | nil => simp [autoDetectCapabilities_nil]
  | cons e rest ih =>
    rw [autoDetectCapabilities_cons, ih, entry_state]
    rw [autoDetectEntry_eq, List.any_cons]
    generalize (rest.any fun e => present dc e.1 && decide (e.1.GroupVersionKind.Kind = k)) = a
    by_cases hp : present dc e.1 = true
    · by_cases hs : w.stateManager e.1.GroupVersionKind.Kind = false
      · by_cases hk : e.1.GroupVersionKind.Kind = k
        · subst hk
          simp [hp, hs, List.filter_append]
        · cases hw : w.stateManager k <;> cases a <;> simp [hp, hs, hk, hw, List.filter_append]
      · simp at hs
        by_cases hk : e.1.GroupVersionKind.Kind = k
        · subst hk
          simp [hp, hs]
        · cases hw : w.stateManager k <;> cases a <;> simp [hp, hs, hk, hw]
    · cases hw : w.stateManager k <;> cases a <;> simp [hp, hw]

theorem wellFormed_unique {crds : Crds} (h : WellFormed crds) {d : Object} {t t2 : trigger}
    (h1 : (d, t) ∈ crds) (h2 : (d, t2) ∈ crds) : t = t2 := by
  induction crds with
  | nil => simp at h1
  | cons e rest ih =>
    unfold WellFormed at h
    simp only [List.map_cons, List.nodup_cons, List.mem_map, not_exists, not_and] at h
    rcases List.mem_cons.1 h1 with h1 | h1 <;> rcases List.mem_cons.1 h2 with h2 | h2
    · rw [← h1] at h2
      exact ((Prod.mk.inj h2).2).symm
    · rw [← h1] at h
      exact absurd rfl (h.1 (d, t2) h2)
    · rw [← h2] at h
      exact absurd rfl (h.1 (d, t) h1)
    · exact ih h.2 h1 h2

theorem wellFormed_perm {crds order : Crds} (h : WellFormed crds) (hp : order.Perm crds) :
    WellFormed order := by
  unfold WellFormed at *
  exact ((hp.map Prod.fst).nodup_iff).2 h

/-- With distinct keys and a kind that no other enumerated entry has, a run
invokes the trigger of a present, not yet fired descriptor exactly once. -/
theorem run_count_one (dc : Object → DiscoveryInterface) (order : Crds) (sm : StateManager)
    (D : Object) (T : trigger) (hwf : WellFormed order) (hmem : (D, T) ∈ order)
    (huniq : ∀ e ∈ order, e.1.GroupVersionKind.Kind = D.GroupVersionKind.Kind → e.1 = D)
    (hp : present dc D = true) (hs : sm D.GroupVersionKind.Kind = false) :
    (autoDetectCapabilities dc order ⟨sm, []⟩).invoked.count (T, D) = 1 := by
  have hk := run_kind_count dc order ⟨sm, []⟩ D.GroupVersionKind.Kind
  have hany : order.any (fun e => present dc e.1 &&
      decide (e.1.GroupVersionKind.Kind = D.GroupVersionKind.Kind)) = true := by
    rw [List.any_eq_true]
    exact ⟨(D, T), hmem, by simp [hp]⟩
  simp only [hs, hany, and_self, if_true, List.filter_nil, List.length_nil, Nat.zero_add] at hk
  rw [List.count, List.countP_eq_length_filter, ← hk]
  congr 1
  apply List.filter_congr
  intro c hc
  rcases run_invoked_sound dc order ⟨sm, []⟩ c hc with h | ⟨hm, _, _⟩
  · simp at h
  · by_cases hkind : c.2.GroupVersionKind.Kind = D.GroupVersionKind.Kind
    · have hD : c.2 = D := huniq _ hm hkind
      have hm2 : (D, c.1) ∈ order := by rw [← hD]; exact hm
      have hT : T = c.1 := wellFormed_unique hwf hmem hm2
      have : c = (T, D) := by rw [hT, ← hD]
      simp [this]
    · have : ¬ c = (T, D) := by
        intro h
        apply hkind
        rw [h]
      simp [hkind, this]

/-- A run in which `D` is not reported present, or finds the kind of `D` already
fired, does not invoke any trigger with `D`. -/
theorem run_count_zero (dc : Object → DiscoveryInterface) (order : Crds) (sm : StateManager)
    (D : Object) (T : trigger)
    (h : present dc D = false ∨ sm D.GroupVersionKind.Kind = true) :
    (T, D) ∉ (autoDetectCapabilities dc order ⟨sm, []⟩).invoked := by
  intro hc
  rcases run_invoked_sound dc order ⟨sm, []⟩ (T, D) hc with h2 | ⟨_, hp, hs⟩
  · simp at h2
  · rcases h with h | h
    · simp [h] at hp
    · simp [h] at hs

/-! ## Lemmas on sequences of ticks -/

theorem runTicks_nil (w : World) : runTicks [] w = w := rfl

theorem runTicks_cons (t : Tick) (ts : List Tick) (w : World) :
    runTicks (t :: ts) w = runTicks ts (autoDetectCapabilities t.dc t.order w) := rfl

theorem runTicks_invoked (ticks : List Tick) (w : World) :
    (runTicks ticks w).invoked = w.invoked ++ (runTicks ticks ⟨w.stateManager, []⟩).invoked ∧
    (runTicks ticks w).stateManager = (runTicks ticks ⟨w.stateManager, []⟩).stateManager := by
  induction ticks generalizing w with
  | nil => simp [runTicks_nil]
  | cons t ts ih =>
    rw [runTicks_cons, runTicks_cons]
    have h1 := ih (autoDetectCapabilities t.dc t.order w)
    have h2 := ih (autoDetectCapabilities t.dc t.order ⟨w.stateManager, []⟩)
    have h3 := run_invoked t.dc t.order w
    rw [h1.1, h1.2, h2.1, h2.2, h3.1, h3.2]
    simp

theorem runTicks_state_mono (ticks : List Tick) (w : World) (k : String)
    (h : w.stateManager k = true) : (runTicks ticks w).stateManager k = true := by
  induction ticks generalizing w with
  | nil => simpa [runTicks_nil] using h
  | cons t ts ih =>
    rw [runTicks_cons]
    exact ih _ (run_state_mono _ _ _ _ h)

/-- The log of a sequence of ticks is the concatenation of the logs of its ticks. -/
theorem runTicks_tickLog (ticks : List Tick) (sm : StateManager) :
    (runTicks ticks ⟨sm, []⟩).invoked = (tickLog ticks sm).flatten := by
  induction ticks generalizing sm with
  | nil => rfl
  | cons t ts ih =>
    rw [runTicks_cons, (runTicks_invoked ts _).1, tickLog, List.flatten_cons, ih]

theorem runTicks_count_zero (ticks : List Tick) (sm : StateManager) (D : Object) (T : trigger)
    (h : (∀ t ∈ ticks, present t.dc D = false) ∨ sm D.GroupVersionKind.Kind = true) :
    (T, D) ∉ (runTicks ticks ⟨sm, []⟩).invoked := by
  induction ticks generalizing sm with
  | nil => simp [runTicks_nil]
  | cons t ts ih =>
    rw [runTicks_cons, (runTicks_invoked ts _).1, List.mem_append, not_or]
    constructor
    · apply run_count_zero
      rcases h with h | h
      · left; exact h t (List.mem_cons_self _ _)
      · right; exact h
    · apply ih
      rcases h with h | h
      · left; exact fun u hu => h u (List.mem_cons_of_mem _ hu)
      · right; exact run_state_mono _ _ _ _ h

/-- A run in which the only entry of the kind of `D` is `D` itself, not reported
present, leaves that kind not fired. -/
theorem run_state_absent (dc : Object → DiscoveryInterface) (order : Crds) (sm : StateManager)
    (D : Object)
    (huniq : ∀ e ∈ order, e.1.GroupVersionKind.Kind = D.GroupVersionKind.Kind → e.1 = D)
    (hp : present dc D = false) (hs : sm D.GroupVersionKind.Kind = false) :
    (autoDetectCapabilities dc order ⟨sm, []⟩).stateManager D.GroupVersionKind.Kind = false := by
  rw [run_state]
  simp only [hs, Bool.false_or]
  rw [List.any_eq_false]
  intro e he
  by_cases hk : e.1.GroupVersionKind.Kind = D.GroupVersionKind.Kind
  · rw [huniq e he hk]
    simp [hp]
  · simp [hk]

theorem run_state_present (dc : Object → DiscoveryInterface) (order : Crds) (sm : StateManager)
    (D : Object) (T : trigger) (hmem : (D, T) ∈ order) (hp : present dc D = true) :
    (autoDetectCapabilities dc order ⟨sm, []⟩).stateManager D.GroupVersionKind.Kind = true := by
  rw [run_state]
  have : order.any (fun e => present dc e.1 &&
      decide (e.1.GroupVersionKind.Kind = D.GroupVersionKind.Kind)) = true := by
    rw [List.any_eq_true]
    exact ⟨(D, T), hmem, by simp [hp]⟩
  simp [this]

theorem uniq_of_perm {crds order : Crds} {D : Object} (hp : order.Perm crds)
    (huniq : ∀ e ∈ crds, e.1.GroupVersionKind.Kind = D.GroupVersionKind.Kind → e.1 = D) :
    ∀ e ∈ order, e.1.GroupVersionKind.Kind = D.GroupVersionKind.Kind → e.1 = D :=
  fun e he => huniq e (hp.mem_iff.1 he)

theorem countKind_append (l1 l2 : List (trigger × Object)) (k : String) :
    countKind (l1 ++ l2) k = countKind l1 k + countKind l2 k := by
  unfold countKind
  rw [List.filter_append, List.length_append]

theorem countKind_run (dc : Object → DiscoveryInterface) (order : Crds) (sm : StateManager)
    (k : String) :
    countKind (autoDetectCapabilities dc order ⟨sm, []⟩).invoked k =
      if sm k = false ∧
          order.any (fun e => present dc e.1 && decide (e.1.GroupVersionKind.Kind = k)) = true
        then 1 else 0 := by
  unfold countKind
  rw [run_kind_count]
  simp

/-- Over any sequence of ticks at most one invocation is made for a kind, and
none when the kind is fired at the start. -/
theorem runTicks_countKind (ticks : List Tick) (sm : StateManager) (k : String) :
    countKind (runTicks ticks ⟨sm, []⟩).invoked k ≤ 1 ∧
      (sm k = true → countKind (runTicks ticks ⟨sm, []⟩).invoked k = 0) := by
  induction ticks generalizing sm with
  | nil => simp [runTicks_nil, countKind]
  | cons t ts ih =>
    rw [runTicks_cons, (runTicks_invoked ts _).1, countKind_append, countKind_run]
    have hrest := ih (autoDetectCapabilities t.dc t.order ⟨sm, []⟩).stateManager
    have hst : (autoDetectCapabilities t.dc t.order ⟨sm, []⟩).stateManager k =
        (sm k || t.order.any
          (fun e => present t.dc e.1 && decide (e.1.GroupVersionKind.Kind = k))) :=
      run_state t.dc t.order ⟨sm, []⟩ k
    by_cases hs : sm k = true
    · rw [hs, Bool.true_or] at hst
      have h0 := hrest.2 hst
      simp [hs, h0]
    · simp only [Bool.not_eq_true] at hs
      by_cases ha : t.order.any
          (fun e => present t.dc e.1 && decide (e.1.GroupVersionKind.Kind = k)) = true
      · rw [hs, ha] at hst
        have h0 := hrest.2 (by simpa using hst)
        simp [hs, ha, h0]
      · simp only [Bool.not_eq_true] at ha
        have h1 := hrest.1
        simp [hs, ha, h1]

theorem count_le_countKind (l : List (trigger × Object)) (T : trigger) (D : Object) :
    l.count (T, D) ≤ countKind l D.GroupVersionKind.Kind := by
  unfold countKind
  rw [List.count, ← List.countP_eq_length_filter]
  apply List.countP_mono_left
  intro c _ hc
  have : c = (T, D) := by simpa using hc
  simp [this]

/-! ## The claims -/

/-- C1 (as stated, refuted): with two registered descriptors of the same kind
`Foo`, both reported present on every tick of a two-tick sequence that starts
from the fresh capability state, the trigger of the second descriptor is never
invoked with it. -/
theorem C1_shared_kind_counterexample :
    WellFormed tableFoo ∧ (fooB, t2) ∈ tableFoo ∧ present dcAll fooB = true ∧
      (runTicks [⟨dcAll, tableFoo⟩, ⟨dcAll, tableFoo⟩] ⟨GetStateManager, []⟩).invoked.count
        (t2, fooB) = 0 := by
  decide

/-- C1 (amended): over any sequence of ticks a trigger `T` is invoked with a
registered descriptor `D` at most once; and when the kind of `D` is not fired
before the first tick and is the kind of no other registered descriptor, then,
if some tick of the sequence reports `D` present, `T` is invoked with `D`
exactly once over the whole sequence. -/
theorem C1_fires_exactly_once (crds : Crds) (ticks : List Tick) (sm : StateManager)
    (D : Object) (T : trigger)
    (hwf : WellFormed crds) (hreg : (D, T) ∈ crds)
    (hord : ∀ t ∈ ticks, t.order.Perm crds) :
    (runTicks ticks ⟨sm, []⟩).invoked.count (T, D) ≤ 1 ∧
    (GetState sm D.GroupVersionKind.Kind = false →
      (∀ e ∈ crds, e.1.GroupVersionKind.Kind = D.GroupVersionKind.Kind → e.1 = D) →
      (∃ t ∈ ticks, present t.dc D = true) →
      (runTicks ticks ⟨sm, []⟩).invoked.count (T, D) = 1) := by
  refine ⟨Nat.le_trans (count_le_countKind _ T D) (runTicks_countKind ticks sm _).1, ?_⟩
  intro hs huniq hp
  unfold GetState at hs
  induction ticks generalizing sm with
  | nil => simp at hp
  | cons t ts ih =>
    have hperm : t.order.Perm crds := hord t (List.mem_cons_self _ _)
    have hord2 : ∀ u ∈ ts, u.order.Perm crds := fun u hu => hord u (List.mem_cons_of_mem _ hu)
    rw [runTicks_cons, (runTicks_invoked ts _).1, List.count_append]
    by_cases hpt : present t.dc D = true
    · rw [run_count_one t.dc t.order sm D T (wellFormed_perm hwf hperm) (hperm.mem_iff.2 hreg)
        (uniq_of_perm hperm huniq) hpt hs]
      have h0 := runTicks_count_zero ts
        (autoDetectCapabilities t.dc t.order ⟨sm, []⟩).stateManager D T
        (Or.inr (run_state_present t.dc t.order sm D T (hperm.mem_iff.2 hreg) hpt))
      rw [List.count_eq_zero_of_not_mem h0]
    · simp only [Bool.not_eq_true] at hpt
      rw [List.count_eq_zero_of_not_mem (run_count_zero t.dc t.order sm D T (Or.inl hpt))]
      rw [Nat.zero_add]
      apply ih _ hord2 (run_state_absent t.dc t.order sm D (uniq_of_perm hperm huniq) hpt hs)
      rcases hp with ⟨u, hu, hpu⟩
      rcases List.mem_cons.1 hu with h | h
      · rw [h, hpt] at hpu
        exact absurd hpu (by simp)
      · exact ⟨u, h, hpu⟩

/-- C1 (witness): `Foo` absent on tick 1, present on ticks 2 and 3. -/
theorem C1_fires_exactly_once_witness :
    (runTicks [⟨dcNone, tableMixed⟩, ⟨dcAll, tableMixed⟩, ⟨dcAll, [(barA, t3), (fooA, t1)]⟩]
      ⟨GetStateManager, []⟩).invoked.count (t1, fooA) = 1 :=
  (C1_fires_exactly_once tableMixed
    [⟨dcNone, tableMixed⟩, ⟨dcAll, tableMixed⟩, ⟨dcAll, [(barA, t3), (fooA, t1)]⟩]
    GetStateManager fooA t1 (by decide) (by decide) (by decide)).2 (by decide) (by decide)
    (by decide)

theorem tickLog_fired (ticks : List Tick) (sm : StateManager) (D : Object) (T : trigger)
    (h : sm D.GroupVersionKind.Kind = true) (j : Nat) :
    (T, D) ∉ (tickLog ticks sm).getD j [] := by
  induction ticks generalizing sm j with
  | nil => simp [tickLog]
  | cons t ts ih =>
    rw [tickLog]
    cases j with
    | zero =>
      rw [List.getD_cons_zero]
      exact run_count_zero t.dc t.order sm D T (Or.inr h)
    | succ j =>
      rw [List.getD_cons_succ]
      exact ih _ (run_state_mono _ _ _ _ h) j

/-- C2: for a registered descriptor `D` with trigger `T` whose kind is not fired
before the first tick and is the kind of no other registered descriptor, if
tick `i` is the first tick that reports `D` present then tick `i` invokes `T`
with `D` exactly once and every other tick, earlier or later, does not invoke
it at all. -/
theorem C2_fires_in_first_present_tick (crds : Crds) (ticks : List Tick) (sm : StateManager)
    (D : Object) (T : trigger)
    (hwf : WellFormed crds) (hreg : (D, T) ∈ crds)
    (hord : ∀ t ∈ ticks, t.order.Perm crds)
    (hs : GetState sm D.GroupVersionKind.Kind = false)
    (huniq : ∀ e ∈ crds, e.1.GroupVersionKind.Kind = D.GroupVersionKind.Kind → e.1 = D)
    (i : Nat) (hi : presentAt ticks D i = true)
    (hfirst : ∀ j, j < i → presentAt ticks D j = false) (j : Nat) :
    ((tickLog ticks sm).getD j []).count (T, D) = if j = i then 1 else 0 := by
  unfold GetState at hs
  induction ticks generalizing sm i j with
  | nil => simp [presentAt] at hi
  | cons t ts ih =>
    have hperm : t.order.Perm crds := hord t (List.mem_cons_self _ _)
    have hord2 : ∀ u ∈ ts, u.order.Perm crds := fun u hu => hord u (List.mem_cons_of_mem _ hu)
    rw [tickLog]
    cases i with
    | zero =>
      have hpt : present t.dc D = true := by simpa [presentAt] using hi
      cases j with
      | zero =>
        rw [List.getD_cons_zero]
        simp only [if_true]
        exact run_count_one t.dc t.order sm D T (wellFormed_perm hwf hperm)
          (hperm.mem_iff.2 hreg) (uniq_of_perm hperm huniq) hpt hs
      | succ j =>
        rw [List.getD_cons_succ]
        have h0 := tickLog_fired ts
          (autoDetectCapabilities t.dc t.order ⟨sm, []⟩).stateManager D T
          (run_state_present t.dc t.order sm D T (hperm.mem_iff.2 hreg) hpt) j
        rw [List.count_eq_zero_of_not_mem h0]
        simp
    | succ i =>
      have hpt : present t.dc D = false := by
        have := hfirst 0 (Nat.succ_pos i)
        simpa [presentAt] using this
      cases j with
      | zero =>
        rw [List.getD_cons_zero]
        rw [List.count_eq_zero_of_not_mem (run_count_zero t.dc t.order sm D T (Or.inl hpt))]
        simp
      | succ j =>
        rw [List.getD_cons_succ]
        have hi2 : presentAt ts D i = true := by simpa [presentAt] using hi
        have hfirst2 : ∀ m, m < i → presentAt ts D m = false := by
          intro m hm
          have := hfirst (m + 1) (Nat.succ_lt_succ hm)
          simpa [presentAt] using this
        rw [ih _ hord2 (run_state_absent t.dc t.order sm D (uniq_of_perm hperm huniq) hpt hs)
          i hi2 hfirst2 j]
        simp

/-- C2 (witness): `Foo` absent on tick 1, present on ticks 2 and 3; the trigger
fires in tick 2 (index 1) and the log of tick 2 holds that one invocation. -/
theorem C2_fires_in_first_present_tick_witness :
    ((tickLog [⟨dcNone, tableMixed⟩, ⟨dcAll, tableMixed⟩, ⟨dcAll, tableMixed⟩]
        GetStateManager).getD 1 []).count (t1, fooA) = (if 1 = 1 then 1 else 0) ∧
    ((tickLog [⟨dcNone, tableMixed⟩, ⟨dcAll, tableMixed⟩, ⟨dcAll, tableMixed⟩]
        GetStateManager).getD 2 []).count (t1, fooA) = (if 2 = 1 then 1 else 0) ∧
    tickLog [⟨dcNone, tableMixed⟩, ⟨dcAll, tableMixed⟩, ⟨dcAll, tableMixed⟩] GetStateManager =
      [[], [(t1, fooA), (t3, barA)], []] :=
  ⟨C2_fires_in_first_present_tick tableMixed
      [⟨dcNone, tableMixed⟩, ⟨dcAll, tableMixed⟩, ⟨dcAll, tableMixed⟩] GetStateManager fooA t1
      (by decide) (by decide) (by decide) (by decide) (by decide) 1 (by decide) (by decide) 1,
    C2_fires_in_first_present_tick tableMixed
      [⟨dcNone, tableMixed⟩, ⟨dcAll, tableMixed⟩, ⟨dcAll, tableMixed⟩] GetStateManager fooA t1
      (by decide) (by decide) (by decide) (by decide) (by decide) 1 (by decide) (by decide) 2,
    by decide⟩

/-- C3: a descriptor that no tick of the sequence reports present is never passed
to a trigger, whatever the capability state at the start and whatever else is
registered. -/
theorem C3_never_present_never_invoked (ticks : List Tick) (sm : StateManager) (D : Object)
    (T : trigger) (h : ∀ t ∈ ticks, present t.dc D = false) :
    (T, D) ∉ (runTicks ticks ⟨sm, []⟩).invoked :=
  runTicks_count_zero ticks sm D T (Or.inl h)

/-- C3 (witness): `Bar` is registered, the provider serves nothing on both ticks. -/
theorem C3_never_present_never_invoked_witness :
    (t3, barA) ∉
      (runTicks [⟨dcNone, tableMixed⟩, ⟨dcNone, tableMixed⟩] ⟨GetStateManager, []⟩).invoked :=
  C3_never_present_never_invoked [⟨dcNone, tableMixed⟩, ⟨dcNone, tableMixed⟩] GetStateManager
    barA t3 (by decide)

theorem present_of_error (dc : Object → DiscoveryInterface) (crd : Object)
    (h : ((dc crd).ServerResources).2 ≠ none) : present dc crd = false := by
  unfold present resourceExists
  rcases hsr : (dc crd).ServerResources with ⟨lists, err⟩
  rw [hsr] at h
  cases err with
  | none => exact absurd rfl h
  | some e => rfl

/-- C4: a failed `ServerResources` call makes `resourceExists` answer false,
whatever lists come with the error; a run all of whose calls fail leaves the
capability state and the invocation log as they were (the error is dropped, the
run has no error result); and a descriptor whose query fails on every tick is
never passed to a trigger. -/
theorem C4_query_error_counts_as_absent :
    (∀ (lists : List APIResourceList) (err gv k : String),
        resourceExists ⟨(lists, some err)⟩ gv k = (false, some err)) ∧
    (∀ (dc : Object → DiscoveryInterface) (order : Crds) (w : World),
        (∀ e ∈ order, ((dc e.1).ServerResources).2 ≠ none) →
          autoDetectCapabilities dc order w = w) ∧
    (∀ (ticks : List Tick) (sm : StateManager) (D : Object) (T : trigger),
        (∀ t ∈ ticks, ((t.dc D).ServerResources).2 ≠ none) →
          (T, D) ∉ (runTicks ticks ⟨sm, []⟩).invoked) := by
  refine ⟨fun _ _ _ _ => rfl, ?_, ?_⟩
  · intro dc order w h
    induction order generalizing w with
    | nil => rfl
    | cons e rest ih =>
      rw [autoDetectCapabilities_cons, autoDetectEntry_eq,
        present_of_error dc e.1 (h e (List.mem_cons_self _ _))]
      simpa using ih w (fun u hu => h u (List.mem_cons_of_mem _ hu))
  · intro ticks sm D T h
    exact runTicks_count_zero ticks sm D T
      (Or.inl (fun t ht => present_of_error t.dc D (h t ht)))

/-- C4 (witness): a provider that fails on every call, although the list it hands
back names `Foo`. -/
theorem C4_query_error_counts_as_absent_witness :
    resourceExists (dcErr fooA) "g1/v1" "Foo" = (false, some "timeout") ∧
    (autoDetectCapabilities dcErr tableFoo ⟨GetStateManager, []⟩).invoked = [] ∧
    (t1, fooA) ∉ (runTicks [⟨dcErr, tableFoo⟩, ⟨dcErr, tableFoo⟩] ⟨GetStateManager, []⟩).invoked :=
  ⟨C4_query_error_counts_as_absent.1 _ "timeout" "g1/v1" "Foo",
    by rw [C4_query_error_counts_as_absent.2.1 dcErr tableFoo ⟨GetStateManager, []⟩ (by decide)],
    C4_query_error_counts_as_absent.2.2 [⟨dcErr, tableFoo⟩, ⟨dcErr, tableFoo⟩] GetStateManager
      fooA t1 (by decide)⟩

/-- C5: a capability that is fired before a run of the detection loop is fired
after it. -/
theorem C5_fired_is_monotone (dc : Object → DiscoveryInterface) (order : Crds) (w : World)
    (k : String) (h : GetState w.stateManager k = true) :
    GetState (autoDetectCapabilities dc order w).stateManager k = true :=
  run_state_mono dc order w k h

/-- C5 (witness): `Bar` fired beforehand, a run that fires `Foo`. -/
theorem C5_fired_is_monotone_witness :
    GetState (autoDetectCapabilities dcAll tableFoo
      ⟨SetState GetStateManager "Bar" true, []⟩).stateManager "Bar" = true :=
  C5_fired_is_monotone dcAll tableFoo ⟨SetState GetStateManager "Bar" true, []⟩ "Bar"
    (by decide)

/-! ### Registration -/

theorem lookup_cons (e : Object × trigger) (rest : Crds) (crd : Object) :
    lookup (e :: rest) crd = if e.1 = crd then some e.2 else lookup rest crd := by
  unfold lookup
  by_cases h : e.1 = crd
  · simp [List.find?_cons, h]
  · simp [List.find?_cons, h]

theorem lookup_AddCRDTrigger_self (crds : Crds) (d : Object) (t : trigger) :
    lookup (AddCRDTrigger crds d t) d = some t := by
  induction crds with
  | nil => simp [AddCRDTrigger, lookup_cons]
  | cons e rest ih =>
    rw [AddCRDTrigger]
    by_cases h : e.1 = d
    · simp [h, lookup_cons]
    · simp [h, lookup_cons, ih]

theorem lookup_AddCRDTrigger_other (crds : Crds) (d k : Object) (t : trigger) (hk : k ≠ d) :
    lookup (AddCRDTrigger crds d t) k = lookup crds k := by
  have hk2 : ¬ d = k := fun h => hk h.symm
  induction crds with
  | nil => simp [AddCRDTrigger, lookup_cons, hk2, lookup]
  | cons e rest ih =>
    rw [AddCRDTrigger]
    by_cases h : e.1 = d
    · have h3 : ¬ e.1 = k := by rw [h]; exact hk2
      simp [h, lookup_cons, hk2]
    · simp [h, lookup_cons, ih]

theorem mem_AddCRDTrigger_self (crds : Crds) (d : Object) (t : trigger) :
    (d, t) ∈ AddCRDTrigger crds d t := by
  induction crds with
  | nil => simp [AddCRDTrigger]
  | cons e rest ih =>
    rw [AddCRDTrigger]
    by_cases h : e.1 = d
    · simp [h]
    · simp [h, ih]

theorem keys_AddCRDTrigger (crds : Crds) (d : Object) (t : trigger) (x : Object) :
    x ∈ (AddCRDTrigger crds d t).map Prod.fst ↔ x ∈ crds.map Prod.fst ∨ x = d := by
  induction crds with
  | nil => simp [AddCRDTrigger]
  | cons e rest ih =>
    rw [AddCRDTrigger]
    by_cases h : e.1 = d
    · rw [if_pos h]
      simp only [List.map_cons, List.mem_cons, h]
      tauto
    · rw [if_neg h]
      simp only [List.map_cons, List.mem_cons, ih]
      tauto

theorem wellFormed_AddCRDTrigger (crds : Crds) (d : Object) (t : trigger)
    (h : WellFormed crds) : WellFormed (AddCRDTrigger crds d t) := by
  induction crds with
  | nil => simp [AddCRDTrigger, WellFormed]
  | cons e rest ih =>
    unfold WellFormed at h
    rw [List.map_cons, List.nodup_cons] at h
    rw [AddCRDTrigger]
    by_cases hd : e.1 = d
    · rw [if_pos hd]
      unfold WellFormed
      rw [List.map_cons, List.nodup_cons]
      exact ⟨by rw [← hd]; exact h.1, h.2⟩
    · rw [if_neg hd]
      unfold WellFormed
      rw [List.map_cons, List.nodup_cons]
      refine ⟨?_, ih h.2⟩
      rw [keys_AddCRDTrigger]
      rintro (h1 | h1)
      · exact h.1 h1
      · exact hd h1

/-- C6: registering `d` with `ta` and then with `tb` leaves a table that maps `d`
to `tb` and every other key as before, still with distinct keys; in any run over
that table every invocation with `d` is of `tb` (so `ta`, when different, is not
invoked with `d`), and a run that finds `d` present, its kind not fired and
shared by no other key, invokes `tb` with `d` exactly once. -/
theorem C6_last_registration_wins (crds : Crds) (d : Object) (ta tb : trigger)
    (hwf : WellFormed crds) :
    lookup (AddCRDTrigger (AddCRDTrigger crds d ta) d tb) d = some tb ∧
    (∀ k, k ≠ d →
      lookup (AddCRDTrigger (AddCRDTrigger crds d ta) d tb) k = lookup crds k) ∧
    WellFormed (AddCRDTrigger (AddCRDTrigger crds d ta) d tb) ∧
    (∀ (dc : Object → DiscoveryInterface) (order : Crds) (sm : StateManager) (T : trigger),
      order.Perm (AddCRDTrigger (AddCRDTrigger crds d ta) d tb) →
      (T, d) ∈ (autoDetectCapabilities dc order ⟨sm, []⟩).invoked → T = tb) ∧
    (∀ (dc : Object → DiscoveryInterface) (order : Crds) (sm : StateManager),
      order.Perm (AddCRDTrigger (AddCRDTrigger crds d ta) d tb) →
      present dc d = true → GetState sm d.GroupVersionKind.Kind = false →
      (∀ e ∈ AddCRDTrigger (AddCRDTrigger crds d ta) d tb,
        e.1.GroupVersionKind.Kind = d.GroupVersionKind.Kind → e.1 = d) →
      (autoDetectCapabilities dc order ⟨sm, []⟩).invoked.count (tb, d) = 1) := by
  have hwf2 : WellFormed (AddCRDTrigger (AddCRDTrigger crds d ta) d tb) :=
    wellFormed_AddCRDTrigger _ d tb (wellFormed_AddCRDTrigger crds d ta hwf)
  have hmem := mem_AddCRDTrigger_self (AddCRDTrigger crds d ta) d tb
  refine ⟨lookup_AddCRDTrigger_self _ d tb, ?_, hwf2, ?_, ?_⟩
  · intro k hk
    rw [lookup_AddCRDTrigger_other _ d k tb hk, lookup_AddCRDTrigger_other _ d k ta hk]
  · intro dc order sm T hperm hT
    rcases run_invoked_sound dc order ⟨sm, []⟩ (T, d) hT with h | ⟨h, _, _⟩
    · simp at h
    · exact wellFormed_unique hwf2 (hperm.mem_iff.1 h) hmem
  · intro dc order sm hperm hp hs huniq
    exact run_count_one dc order sm d tb (wellFormed_perm hwf2 hperm) (hperm.mem_iff.2 hmem)
      (uniq_of_perm hperm huniq) hp hs

/-- C6 (witness): `Foo` registered with `t1`, then again with `t2`, next to `Bar`. -/
theorem C6_last_registration_wins_witness :
    AddCRDTrigger (AddCRDTrigger [(barA, t3)] fooA t1) fooA t2 = [(barA, t3), (fooA, t2)] ∧
    lookup (AddCRDTrigger (AddCRDTrigger [(barA, t3)] fooA t1) fooA t2) fooA = some t2 ∧
    (autoDetectCapabilities dcAll [(fooA, t2), (barA, t3)] ⟨GetStateManager, []⟩).invoked.count
      (t2, fooA) = 1 :=
  ⟨by decide, (C6_last_registration_wins [(barA, t3)] fooA t1 t2 (by decide)).1,
    (C6_last_registration_wins [(barA, t3)] fooA t1 t2 (by decide)).2.2.2.2 dcAll
      [(fooA, t2), (barA, t3)] GetStateManager (by decide) (by decide) (by decide) (by decide)⟩

/-! ### Two Detectors on one capability state -/

theorem any_of_mem (dc : Object → DiscoveryInterface) (order : Crds) (d : Object) (t : trigger)
    (k : String) (hm : (d, t) ∈ order) (hk : d.GroupVersionKind.Kind = k)
    (hp : present dc d = true) :
    order.any (fun e => present dc e.1 && decide (e.1.GroupVersionKind.Kind = k)) = true := by
  rw [List.any_eq_true]
  exact ⟨(d, t), hm, by simp [hp, hk]⟩

/-- C7: two Detectors `A` and `B` run one tick each on the same capability state,
each has a registered descriptor of the kind and is told that it is present, and
the kind is not fired beforehand. Whichever tick runs first makes exactly one
invocation for the kind, the tick that runs second makes none, and the joint log
holds exactly one invocation for the kind. -/
theorem C7_shared_state_fires_once (A B : Detector) (dcA dcB : Object → DiscoveryInterface)
    (ordA ordB : Crds) (dA dB : Object) (tA tB : trigger) (sm : StateManager) (kind : String)
    (hordA : ordA.Perm A.crds) (hordB : ordB.Perm B.crds)
    (hA : (dA, tA) ∈ A.crds) (hB : (dB, tB) ∈ B.crds)
    (hkA : dA.GroupVersionKind.Kind = kind) (hkB : dB.GroupVersionKind.Kind = kind)
    (hpA : present dcA dA = true) (hpB : present dcB dB = true)
    (hs : GetState sm kind = false) :
    (countKind (autoDetectCapabilities dcA ordA ⟨sm, []⟩).invoked kind = 1 ∧
      countKind (autoDetectCapabilities dcB ordB
        ⟨(autoDetectCapabilities dcA ordA ⟨sm, []⟩).stateManager, []⟩).invoked kind = 0 ∧
      countKind (autoDetectCapabilities dcB ordB
        (autoDetectCapabilities dcA ordA ⟨sm, []⟩)).invoked kind = 1) ∧
    (countKind (autoDetectCapabilities dcB ordB ⟨sm, []⟩).invoked kind = 1 ∧
      countKind (autoDetectCapabilities dcA ordA
        ⟨(autoDetectCapabilities dcB ordB ⟨sm, []⟩).stateManager, []⟩).invoked kind = 0 ∧
      countKind (autoDetectCapabilities dcA ordA
        (autoDetectCapabilities dcB ordB ⟨sm, []⟩)).invoked kind = 1) := by
  unfold GetState at hs
  have hanyA := any_of_mem dcA ordA dA tA kind (hordA.mem_iff.2 hA) hkA hpA
  have hanyB := any_of_mem dcB ordB dB tB kind (hordB.mem_iff.2 hB) hkB hpB
  have hsA : (autoDetectCapabilities dcA ordA ⟨sm, []⟩).stateManager kind = true := by
    rw [run_state, hanyA]; simp
  have hsB : (autoDetectCapabilities dcB ordB ⟨sm, []⟩).stateManager kind = true := by
    rw [run_state, hanyB]; simp
  have e1 : countKind (autoDetectCapabilities dcA ordA ⟨sm, []⟩).invoked kind = 1 := by
    rw [countKind_run]; simp [hs, hanyA]
  have e2 : countKind (autoDetectCapabilities dcB ordB
      ⟨(autoDetectCapabilities dcA ordA ⟨sm, []⟩).stateManager, []⟩).invoked kind = 0 := by
    rw [countKind_run]; simp [hsA]
  have e3 : countKind (autoDetectCapabilities dcB ordB ⟨sm, []⟩).invoked kind = 1 := by
    rw [countKind_run]; simp [hs, hanyB]
  have e4 : countKind (autoDetectCapabilities dcA ordA
      ⟨(autoDetectCapabilities dcB ordB ⟨sm, []⟩).stateManager, []⟩).invoked kind = 0 := by
    rw [countKind_run]; simp [hsB]
  refine ⟨⟨e1, e2, ?_⟩, ⟨e3, e4, ?_⟩⟩
  · rw [(run_invoked dcB ordB _).1, countKind_append, e1, e2]
  · rw [(run_invoked dcA ordA _).1, countKind_append, e3, e4]

/-- C7 (witness): Detector `A` watches `barA`, Detector `B` watches `barB`, both of
kind `Bar`; the only invocation is on the Detector that ran first. -/
theorem C7_shared_state_fires_once_witness :
    (autoDetectCapabilities dcAll [(barB, t2)]
      (autoDetectCapabilities dcAll [(fooA, t1), (barA, t3)] ⟨GetStateManager, []⟩)).invoked =
        [(t1, fooA), (t3, barA)] ∧
    countKind (autoDetectCapabilities dcAll [(barB, t2)]
      (autoDetectCapabilities dcAll [(fooA, t1), (barA, t3)] ⟨GetStateManager, []⟩)).invoked
        "Bar" = 1 :=
  ⟨by decide,
    (C7_shared_state_fires_once
      { NewAutoDetect with crds := [(fooA, t1), (barA, t3)] }
      { NewAutoDetect with crds := [(barB, t2)] } dcAll dcAll
      [(fooA, t1), (barA, t3)] [(barB, t2)] barA barB t3 t2 GetStateManager "Bar"
      (by decide) (by decide) (by decide) (by decide) (by decide) (by decide) (by decide)
      (by decide) (by decide)).1.2.2⟩

/-! ### Enumeration order -/

/-- When the entries that are reported present with a kind not yet fired have
pairwise different kinds, a run invokes exactly those entries, in the order of
the enumeration. -/
theorem run_invoked_filter (dc : Object → DiscoveryInterface) (order : Crds) (sm : StateManager)
    (h : ((order.filter (fun e => present dc e.1 && !sm e.1.GroupVersionKind.Kind)).map
      (fun e => e.1.GroupVersionKind.Kind)).Nodup) :
    (autoDetectCapabilities dc order ⟨sm, []⟩).invoked =
      (order.filter (fun e => present dc e.1 && !sm e.1.GroupVersionKind.Kind)).map
        (fun e => (e.2, e.1)) := by
  induction order generalizing sm with
  | nil => rfl
  | cons e rest ih =>
    rw [autoDetectCapabilities_cons, (run_invoked dc rest _).1, autoDetectEntry_eq]
    by_cases hf : present dc e.1 = true ∧ sm e.1.GroupVersionKind.Kind = false
    · have hfb : (present dc e.1 && !sm e.1.GroupVersionKind.Kind) = true := by
        simp [hf.1, hf.2]
      rw [List.filter_cons] at h
      simp only [hfb, if_true, List.map_cons, List.nodup_cons] at h
      have hsame : rest.filter (fun u => present dc u.1 &&
            !(SetState sm e.1.GroupVersionKind.Kind true) u.1.GroupVersionKind.Kind) =
          rest.filter (fun u => present dc u.1 && !sm u.1.GroupVersionKind.Kind) := by
        apply List.filter_congr
        intro u hu
        by_cases hk : u.1.GroupVersionKind.Kind = e.1.GroupVersionKind.Kind
        · have hnot : ¬ (present dc u.1 && !sm u.1.GroupVersionKind.Kind) = true := by
            intro hu2
            apply h.1
            rw [List.mem_map]
            exact ⟨u, List.mem_filter.2 ⟨hu, hu2⟩, hk⟩
          simp only [Bool.not_eq_true] at hnot
          rw [hnot]
          simp [SetState, hk]
        · simp [SetState, hk]
      have ih2 := ih (SetState sm e.1.GroupVersionKind.Kind true) (by rw [hsame]; exact h.2)
      simp only [hf, and_self, if_true]
      rw [ih2, hsame, List.filter_cons]
      simp only [hfb, if_true, List.map_cons]
      rfl
    · have hfb : ¬ (present dc e.1 && !sm e.1.GroupVersionKind.Kind) = true := by
        intro hc
        apply hf
        simpa using hc
      rw [List.filter_cons] at h
      simp only [hfb, if_false] at h
      rw [if_neg hf, List.filter_cons, ih sm h]
      simp only [hfb, if_false]
      rfl

/-- C8 (as stated, refuted): the table holds two descriptors of kind `Foo`, both
reported present. Enumerated in one order the run invokes `t1` with `fooA`, in
the other order it invokes `t2` with `fooB`: the invocations differ. -/
theorem C8_enumeration_order_counterexample :
    WellFormed tableFoo ∧ [(fooB, t2), (fooA, t1)].Perm tableFoo ∧
    (autoDetectCapabilities dcAll tableFoo ⟨GetStateManager, []⟩).invoked = [(t1, fooA)] ∧
    (autoDetectCapabilities dcAll [(fooB, t2), (fooA, t1)] ⟨GetStateManager, []⟩).invoked =
      [(t2, fooB)] ∧
    (t1, fooA) ∉
      (autoDetectCapabilities dcAll [(fooB, t2), (fooA, t1)] ⟨GetStateManager, []⟩).invoked := by
  decide

/-- C8 (amended): any two enumerations of the table leave the same capability
state; and when no two entries that are reported present with a kind not yet
fired share a kind name, they make the same invocations (the two logs are
permutations of each other, so they hold the same pairs). -/
theorem C8_enumeration_order_irrelevant (crds o1 o2 : Crds) (dc : Object → DiscoveryInterface)
    (sm : StateManager) (h1 : o1.Perm crds) (h2 : o2.Perm crds) :
    (autoDetectCapabilities dc o1 ⟨sm, []⟩).stateManager =
      (autoDetectCapabilities dc o2 ⟨sm, []⟩).stateManager ∧
    (((crds.filter (fun e => present dc e.1 && !sm e.1.GroupVersionKind.Kind)).map
        (fun e => e.1.GroupVersionKind.Kind)).Nodup →
      (autoDetectCapabilities dc o1 ⟨sm, []⟩).invoked.Perm
          (autoDetectCapabilities dc o2 ⟨sm, []⟩).invoked ∧
        ∀ c, c ∈ (autoDetectCapabilities dc o1 ⟨sm, []⟩).invoked ↔
          c ∈ (autoDetectCapabilities dc o2 ⟨sm, []⟩).invoked) := by
  have h12 : o1.Perm o2 := h1.trans h2.symm
  constructor
  · funext k
    rw [run_state, run_state]
    congr 1
    rw [Bool.eq_iff_iff, List.any_eq_true, List.any_eq_true]
    constructor
    · rintro ⟨e, he, hp⟩
      exact ⟨e, h12.mem_iff.1 he, hp⟩
    · rintro ⟨e, he, hp⟩
      exact ⟨e, h12.mem_iff.2 he, hp⟩
  · intro hnd
    have hn1 : ((o1.filter (fun e => present dc e.1 && !sm e.1.GroupVersionKind.Kind)).map
        (fun e => e.1.GroupVersionKind.Kind)).Nodup :=
      (((h1.filter _).map _).nodup_iff).2 hnd
    have hn2 : ((o2.filter (fun e => present dc e.1 && !sm e.1.GroupVersionKind.Kind)).map
        (fun e => e.1.GroupVersionKind.Kind)).Nodup :=
      (((h2.filter _).map _).nodup_iff).2 hnd
    have hperm : (autoDetectCapabilities dc o1 ⟨sm, []⟩).invoked.Perm
        (autoDetectCapabilities dc o2 ⟨sm, []⟩).invoked := by
      rw [run_invoked_filter dc o1 sm hn1, run_invoked_filter dc o2 sm hn2]
      exact (h12.filter _).map _
    exact ⟨hperm, fun c => hperm.mem_iff⟩

/-- C8 (witness): a table with `Foo` and `Bar`, enumerated in both orders. -/
theorem C8_enumeration_order_irrelevant_witness :
    (autoDetectCapabilities dcAll [(fooA, t1), (barA, t3)] ⟨GetStateManager, []⟩).invoked.Perm
      (autoDetectCapabilities dcAll [(barA, t3), (fooA, t1)] ⟨GetStateManager, []⟩).invoked ∧
    (autoDetectCapabilities dcAll [(barA, t3), (fooA, t1)] ⟨GetStateManager, []⟩).invoked =
      [(t3, barA), (t1, fooA)] :=
  ⟨((C8_enumeration_order_irrelevant tableMixed [(fooA, t1), (barA, t3)]
      [(barA, t3), (fooA, t1)] dcAll GetStateManager (by decide) (by decide)).2 (by decide)).1,
    by decide⟩

/-! ### The discovery query -/

theorem kindListed_iff (rs : List APIResource) (k : String) :
    kindListed rs k = true ↔ ∃ r ∈ rs, r.Kind = k := by
  induction rs with
  | nil => simp [kindListed]
  | cons r rest ih =>
    rw [kindListed]
    by_cases h : r.Kind = k
    · simp [h]
    · simp [h, ih]

theorem scanLists_iff (L : List APIResourceList) (gv k : String) :
    scanLists L gv k = true ↔
      ∃ l ∈ L, l.GroupVersion = gv ∧ ∃ r ∈ l.APIResources, r.Kind = k := by
  induction L with
  | nil => simp [scanLists]
  | cons l rest ih =>
    rw [scanLists]
    by_cases hg : l.GroupVersion = gv
    · by_cases hk : kindListed l.APIResources k = true
      · have := (kindListed_iff l.APIResources k).1 hk
        simp only [hg, hk, if_true, List.mem_cons, exists_eq_or_imp, true_and, true_iff]
        left
        exact this
      · have hk2 : ¬ ∃ r ∈ l.APIResources, r.Kind = k := fun h =>
          hk ((kindListed_iff l.APIResources k).2 h)
        simp only [hg, hk, if_true, List.mem_cons, exists_eq_or_imp, true_and, ih]
        simp [hk2, ih]
    · simp only [hg, if_false, List.mem_cons, exists_eq_or_imp, false_and, false_or, ih]

/-- C9: when `ServerResources` returns the lists `L` without error,
`resourceExists` returns `(true, nil)` exactly when some list of `L` has the
group/version `gv` and holds a resource of kind `k`, and `(false, nil)` exactly
when none does. -/
theorem C9_resourceExists_iff_listed (gv k : String) (L : List APIResourceList) :
    (resourceExists ⟨(L, none)⟩ gv k = (true, none) ↔
      ∃ l ∈ L, l.GroupVersion = gv ∧ ∃ r ∈ l.APIResources, r.Kind = k) ∧
    (resourceExists ⟨(L, none)⟩ gv k = (false, none) ↔
      ¬ ∃ l ∈ L, l.GroupVersion = gv ∧ ∃ r ∈ l.APIResources, r.Kind = k) := by
  have hres : resourceExists ⟨(L, none)⟩ gv k = (scanLists L gv k, none) := rfl
  rw [hres, ← scanLists_iff]
  cases scanLists L gv k <;> simp

/-! ### The period of the timer -/

theorem wrapInt64_id (x : Int) (h1 : -9223372036854775808 ≤ x) (h2 : x < 9223372036854775808) :
    wrapInt64 x = x := by
  unfold wrapInt64
  rw [Int.emod_eq_of_lt (by omega) (by omega)]
  omega

/-- What `Start` does for every interval: the period handed to `NewTicker` is
the interval multiplied by `time.Second`, reduced to 64 bits, and no timer is
created when that product is not positive; for an interval from 1 to 9223372036
the period is `interval * 1000000000` nanoseconds. -/
theorem Start_period (d : Detector) (interval : Duration) :
    Start d interval =
        (if wrapInt64 (interval * 1000000000) ≤ 0 then none
          else some { d with ticker := some { period := wrapInt64 (interval * 1000000000),
                                              stopped := false } }) ∧
    (1 ≤ interval ∧ interval ≤ 9223372036 →
      Start d interval =
        some { d with ticker := some { period := interval * 1000000000, stopped := false } }) := by
  have hgen : Start d interval =
      (if wrapInt64 (interval * 1000000000) ≤ 0 then none
        else some { d with ticker := some { period := wrapInt64 (interval * 1000000000),
                                            stopped := false } }) := by
    unfold Start NewTicker Second
    by_cases h : wrapInt64 (interval * 1000000000) ≤ 0
    · simp [h]
    · simp [h]
  refine ⟨hgen, ?_⟩
  rintro ⟨h1, h2⟩
  have h3 : (1 : Int) ≤ interval := h1
  have h4 : (9223372036 : Int) ≥ interval := h2
  have hw : wrapInt64 (interval * 1000000000) = interval * 1000000000 :=
    wrapInt64_id _ (by omega) (by omega)
  rw [hgen, hw, if_neg (by omega)]

/-- C10 (the code at the failing inputs): the claim is that the period of the
timer equals the interval given to `Start`. Called with the duration of five
seconds, `Start` creates a timer whose period is 5000000000000000000
nanoseconds, not 5000000000; called with the duration of ten seconds the
product overflows to a negative value and `NewTicker` panics; called with the
bare number 5 the period is 5000000000 nanoseconds, not 5. -/
theorem C10_period_is_not_the_interval :
    Start NewAutoDetect (5 * Second) =
        some { NewAutoDetect with
          ticker := some { period := 5000000000000000000, stopped := false } } ∧
      (5000000000000000000 : Duration) ≠ 5 * Second ∧
      wrapInt64 (10 * Second * Second) = -8446744073709551616 ∧
      Start NewAutoDetect (10 * Second) = none ∧
      Start NewAutoDetect 5 =
        some { NewAutoDetect with ticker := some { period := 5000000000, stopped := false } } := by
  decide

/-! ### Bulk registration -/

theorem lookup_nil (crd : Object) : lookup [] crd = none := rfl

theorem lookup_eq_some_iff {crds : Crds} (h : WellFormed crds) (k : Object) (t : trigger) :
    lookup crds k = some t ↔ (k, t) ∈ crds := by
  induction crds with
  | nil => simp [lookup_nil]
  | cons e rest ih =>
    unfold WellFormed at h
    rw [List.map_cons, List.nodup_cons] at h
    rw [lookup_cons]
    by_cases hk : e.1 = k
    · rw [if_pos hk]
      constructor
      · intro h1
        have : e.2 = t := Option.some.inj h1
        rw [← this, ← hk]
        exact List.mem_cons_self _ _
      · intro h1
        rcases List.mem_cons.1 h1 with h2 | h2
        · rw [← h2]
        · exfalso
          apply h.1
          rw [hk]
          exact List.mem_map.2 ⟨(k, t), h2, rfl⟩
    · rw [if_neg hk, ih h.2]
      constructor
      · intro h1
        exact List.mem_cons_of_mem _ h1
      · intro h1
        rcases List.mem_cons.1 h1 with h2 | h2
        · exfalso
          apply hk
          rw [← h2]
        · exact h2

theorem lookup_eq_none_iff (crds : Crds) (k : Object) :
    lookup crds k = none ↔ k ∉ crds.map Prod.fst := by
  induction crds with
  | nil => simp [lookup_nil]
  | cons e rest ih =>
    rw [lookup_cons]
    by_cases hk : e.1 = k
    · simp [hk]
    · have hk2 : ¬ k = e.1 := fun h => hk h.symm
      rw [if_neg hk, ih]
      simp [hk2]

theorem wellFormed_nodup {crds : Crds} (h : WellFormed crds) : crds.Nodup :=
  List.Nodup.of_map Prod.fst h

/-- Two tables with distinct keys and the same lookups hold the same entries. -/
theorem perm_of_lookup_eq {a b : Crds} (ha : WellFormed a) (hb : WellFormed b)
    (h : ∀ k, lookup a k = lookup b k) : a.Perm b := by
  rw [List.perm_ext_iff_of_nodup (wellFormed_nodup ha) (wellFormed_nodup hb)]
  intro x
  rw [← lookup_eq_some_iff ha x.1 x.2, ← lookup_eq_some_iff hb x.1 x.2, h]

theorem lookup_perm {a b : Crds} (ha : WellFormed a) (hp : b.Perm a) (k : Object) :
    lookup b k = lookup a k := by
  have hb : WellFormed b := wellFormed_perm ha hp
  cases hl : lookup a k with
  | none =>
    rw [lookup_eq_none_iff] at hl ⊢
    intro hm
    exact hl (((hp.map Prod.fst).mem_iff).1 hm)
  | some t =>
    rw [lookup_eq_some_iff ha] at hl
    rw [lookup_eq_some_iff hb]
    exact hp.mem_iff.2 hl

theorem AddCRDsTrigger_cons (table : Crds) (d : Object) (ds : List Object) (t : trigger) :
    AddCRDsTrigger table (d :: ds) t = AddCRDsTrigger (AddCRDTrigger table d t) ds t := rfl

theorem lookup_AddCRDsTrigger (table : Crds) (ds : List Object) (t : trigger) (k : Object) :
    lookup (AddCRDsTrigger table ds t) k = if k ∈ ds then some t else lookup table k := by
  induction ds generalizing table with
  | nil => simp [AddCRDsTrigger]
  | cons d rest ih =>
    rw [AddCRDsTrigger_cons, ih]
    by_cases hr : k ∈ rest
    · simp [hr]
    · by_cases hd : k = d
      · subst hd
        simp [hr, lookup_AddCRDTrigger_self]
      · simp [hr, hd, lookup_AddCRDTrigger_other _ d k t hd]

theorem wellFormed_AddCRDsTrigger (table : Crds) (ds : List Object) (t : trigger)
    (h : WellFormed table) : WellFormed (AddCRDsTrigger table ds t) := by
  induction ds generalizing table with
  | nil => exact h
  | cons d rest ih =>
    rw [AddCRDsTrigger_cons]
    exact ih _ (wellFormed_AddCRDTrigger table d t h)

/-- C14: after `AddCRDsTrigger(ds, t)` the table maps every descriptor of `ds` to
`t` and every other key as before; the call is `AddCRDTrigger(d, t)` made for
each `d` of `ds` in turn, first to last, and with the empty list the table is
unchanged. Keys stay distinct. -/
theorem C14_AddCRDsTrigger_registers_each (table : Crds) (ds : List Object) (t : trigger) :
    (∀ k, k ∈ ds → lookup (AddCRDsTrigger table ds t) k = some t) ∧
    (∀ k, k ∉ ds → lookup (AddCRDsTrigger table ds t) k = lookup table k) ∧
    (∀ d, AddCRDsTrigger table (d :: ds) t = AddCRDsTrigger (AddCRDTrigger table d t) ds t) ∧
    (∀ d, AddCRDsTrigger table (ds ++ [d]) t = AddCRDTrigger (AddCRDsTrigger table ds t) d t) ∧
    AddCRDsTrigger table [] t = table ∧
    (WellFormed table → WellFormed (AddCRDsTrigger table ds t)) := by
  refine ⟨?_, ?_, fun _ => rfl, ?_, rfl, wellFormed_AddCRDsTrigger table ds t⟩
  · intro k hk
    rw [lookup_AddCRDsTrigger, if_pos hk]
  · intro k hk
    rw [lookup_AddCRDsTrigger, if_neg hk]
  · intro d
    unfold AddCRDsTrigger
    rw [List.foldl_append]
    rfl

/-- C14 (witness): `Foo` and a new `Bar` registered with `t2` on a table that
already maps `Foo` to `t1`. -/
theorem C14_AddCRDsTrigger_registers_each_witness :
    AddCRDsTrigger [(fooA, t1), (fooB, t3)] [fooA, barA] t2 =
        [(fooA, t2), (fooB, t3), (barA, t2)] ∧
      lookup (AddCRDsTrigger [(fooA, t1), (fooB, t3)] [fooA, barA] t2) barA = some t2 ∧
      lookup (AddCRDsTrigger [(fooA, t1), (fooB, t3)] [fooA, barA] t2) fooB =
        lookup [(fooA, t1), (fooB, t3)] fooB :=
  ⟨by decide,
    (C14_AddCRDsTrigger_registers_each [(fooA, t1), (fooB, t3)] [fooA, barA] t2).1 barA
      (by decide),
    (C14_AddCRDsTrigger_registers_each [(fooA, t1), (fooB, t3)] [fooA, barA] t2).2.1 fooB
      (by decide)⟩

theorem AddCRDsWithTriggers_cons (table : Crds) (e : Object × trigger) (rest : Crds) :
    AddCRDsWithTriggers table (e :: rest) =
      AddCRDsWithTriggers (AddCRDTrigger table e.1 e.2) rest := rfl

theorem lookup_AddCRDsWithTriggers (table order : Crds) (h : WellFormed order) (k : Object) :
    lookup (AddCRDsWithTriggers table order) k =
      match lookup order k with
      | some t => some t
      | none => lookup table k := by
  induction order generalizing table with
  | nil => rfl
  | cons e rest ih =>
    have h2 := h
    unfold WellFormed at h2
    rw [List.map_cons, List.nodup_cons] at h2
    rw [AddCRDsWithTriggers_cons, ih _ h2.2, lookup_cons]
    by_cases hk : e.1 = k
    · have hnone : lookup rest k = none := by
        rw [lookup_eq_none_iff, ← hk]
        exact h2.1
      rw [hnone, if_pos hk]
      simp only
      rw [← hk, lookup_AddCRDTrigger_self]
    · rw [if_neg hk]
      have hk2 : k ≠ e.1 := fun h => hk h.symm
      rw [lookup_AddCRDTrigger_other _ e.1 k e.2 hk2]

theorem wellFormed_AddCRDsWithTriggers (table order : Crds) (h : WellFormed table) :
    WellFormed (AddCRDsWithTriggers table order) := by
  induction order generalizing table with
  | nil => exact h
  | cons e rest ih =>
    rw [AddCRDsWithTriggers_cons]
    exact ih _ (wellFormed_AddCRDTrigger table e.1 e.2 h)

/-- C15: for an argument map `m` (distinct keys) and any two enumerations `o1`,
`o2` of it, `AddCRDsWithTriggers` gives tables with the same lookups, and with
the same entries when the table had distinct keys; the result maps every key of
`m` to the trigger `m` gives it and every other key as before. -/
theorem C15_AddCRDsWithTriggers_any_order (table m o1 o2 : Crds) (hm : WellFormed m)
    (h1 : o1.Perm m) (h2 : o2.Perm m) :
    (∀ k, lookup (AddCRDsWithTriggers table o1) k = lookup (AddCRDsWithTriggers table o2) k) ∧
    (WellFormed table →
      (AddCRDsWithTriggers table o1).Perm (AddCRDsWithTriggers table o2)) ∧
    (∀ k t, lookup m k = some t → lookup (AddCRDsWithTriggers table o1) k = some t) ∧
    (∀ k, lookup m k = none →
      lookup (AddCRDsWithTriggers table o1) k = lookup table k) := by
  have hw1 : WellFormed o1 := wellFormed_perm hm h1
  have hw2 : WellFormed o2 := wellFormed_perm hm h2
  have hl : ∀ k, lookup (AddCRDsWithTriggers table o1) k =
      lookup (AddCRDsWithTriggers table o2) k := by
    intro k
    rw [lookup_AddCRDsWithTriggers table o1 hw1, lookup_AddCRDsWithTriggers table o2 hw2,
      lookup_perm hm h1, lookup_perm hm h2]
  refine ⟨hl, ?_, ?_, ?_⟩
  · intro ht
    exact perm_of_lookup_eq (wellFormed_AddCRDsWithTriggers table o1 ht)
      (wellFormed_AddCRDsWithTriggers table o2 ht) hl
  · intro k t hk
    rw [lookup_AddCRDsWithTriggers table o1 hw1, lookup_perm hm h1, hk]
  · intro k hk
    rw [lookup_AddCRDsWithTriggers table o1 hw1, lookup_perm hm h1, hk]

/-- C15 (witness): the map `fooA -> t2, barA -> t3` added in both orders to a
table that maps `fooA` to `t1`. -/
theorem C15_AddCRDsWithTriggers_any_order_witness :
    (AddCRDsWithTriggers [(fooB, t1), (fooA, t1)] [(fooA, t2), (barA, t3)]).Perm
        (AddCRDsWithTriggers [(fooB, t1), (fooA, t1)] [(barA, t3), (fooA, t2)]) ∧
      AddCRDsWithTriggers [(fooB, t1), (fooA, t1)] [(barA, t3), (fooA, t2)] =
        [(fooB, t1), (fooA, t2), (barA, t3)] :=
  ⟨(C15_AddCRDsWithTriggers_any_order [(fooB, t1), (fooA, t1)] [(fooA, t2), (barA, t3)]
      [(fooA, t2), (barA, t3)] [(barA, t3), (fooA, t2)] (by decide) (by decide)
      (by decide)).2.1 (by decide),
    by decide⟩

/-! ### The postcondition of one tick -/

/-- Every invocation of a run is made while the loop is at the entry of that
descriptor and trigger, the descriptor is reported present, and in the state
the loop has reached at that entry the kind of the descriptor is not fired. -/
theorem run_invoked_moment (dc : Object → DiscoveryInterface) (order : Crds) (w : World)
    (c : trigger × Object) (hc : c ∈ (autoDetectCapabilities dc order w).invoked) :
    c ∈ w.invoked ∨
      (present dc c.2 = true ∧
        ∃ pre post, order = pre ++ (c.2, c.1) :: post ∧
          (autoDetectCapabilities dc pre w).stateManager c.2.GroupVersionKind.Kind = false) := by
  induction order generalizing w with
  | nil => left; simpa [autoDetectCapabilities_nil] using hc
  | cons e rest ih =>
    rw [autoDetectCapabilities_cons] at hc
    rcases ih _ hc with h | ⟨hp, pre, post, hsplit, hs⟩
    · rw [autoDetectEntry_eq] at h
      by_cases hf : present dc e.1 = true ∧ w.stateManager e.1.GroupVersionKind.Kind = false
      · simp only [hf, and_self, if_true, List.mem_append, List.mem_singleton] at h
        rcases h with h | h
        · left; exact h
        · right
          subst h
          exact ⟨hf.1, [], rest, rfl, hf.2⟩
      · rw [if_neg hf] at h
        left; exact h
    · right
      refine ⟨hp, e :: pre, post, ?_, ?_⟩
      · rw [hsplit]; rfl
      · rw [autoDetectCapabilities_cons]; exact hs

theorem any_perm {order crds : Crds} (hp : order.Perm crds) (f : Object × trigger → Bool) :
    order.any f = crds.any f := by
  rw [Bool.eq_iff_iff, List.any_eq_true, List.any_eq_true]
  constructor
  · rintro ⟨e, he, hf⟩
    exact ⟨e, hp.mem_iff.1 he, hf⟩
  · rintro ⟨e, he, hf⟩
    exact ⟨e, hp.mem_iff.2 he, hf⟩

theorem autoDetectEntryObs_eq (dc : Object → DiscoveryInterface)
    (w : StateManager × List ((trigger × Object) × Bool)) (e : Object × trigger) :
    autoDetectEntryObs dc w e =
      if present dc e.1 = true ∧ w.1 e.1.GroupVersionKind.Kind = false then
        (SetState w.1 e.1.GroupVersionKind.Kind true, w.2 ++ [((e.2, e.1), true)])
      else w := by
  unfold autoDetectEntryObs present GetState
  by_cases h1 : (resourceExists (dc e.1) e.1.GroupVersionKind.GroupVersion.String
      e.1.GroupVersionKind.Kind).1 = true
  · by_cases h2 : w.1 e.1.GroupVersionKind.Kind = true
    · simp [h1, h2]
    · simp at h2
      simp [h1, h2, SetState]
  · simp [h1]

/-- The loop with the state at each call recorded makes the capability state and
the calls of the plain loop, and every call is recorded with its kind fired. -/
theorem obs_run (dc : Object → DiscoveryInterface) (order : Crds)
    (w : StateManager × List ((trigger × Object) × Bool)) :
    (order.foldl (autoDetectEntryObs dc) w).1 =
        (autoDetectCapabilities dc order ⟨w.1, w.2.map Prod.fst⟩).stateManager ∧
      (order.foldl (autoDetectEntryObs dc) w).2.map Prod.fst =
        (autoDetectCapabilities dc order ⟨w.1, w.2.map Prod.fst⟩).invoked ∧
      ((∀ x ∈ w.2, x.2 = true) →
        ∀ x ∈ (order.foldl (autoDetectEntryObs dc) w).2, x.2 = true) := by
  induction order generalizing w with
  | nil => exact ⟨rfl, rfl, fun h => h⟩
  | cons e rest ih =>
    rw [List.foldl_cons, autoDetectCapabilities_cons]
    have h := ih (autoDetectEntryObs dc w e)
    have hstep : (⟨(autoDetectEntryObs dc w e).1, (autoDetectEntryObs dc w e).2.map Prod.fst⟩ :
        World) = autoDetectEntry dc ⟨w.1, w.2.map Prod.fst⟩ e := by
      rw [autoDetectEntryObs_eq, autoDetectEntry_eq]
      by_cases hf : present dc e.1 = true ∧ w.1 e.1.GroupVersionKind.Kind = false
      · simp [hf]
      · simp [hf]
    rw [hstep] at h
    refine ⟨h.1, h.2.1, ?_⟩
    intro hall
    apply h.2.2
    rw [autoDetectEntryObs_eq]
    by_cases hf : present dc e.1 = true ∧ w.1 e.1.GroupVersionKind.Kind = false
    · rw [if_pos hf]
      intro x hx
      rcases List.mem_append.1 hx with h1 | h1
      · exact hall x h1
      · rw [List.mem_singleton] at h1
        rw [h1]
    · rw [if_neg hf]
      exact hall

/-- C17 (as stated, refuted): `Foo` and `Bar` are registered and reported present,
neither fired. At the moment each trigger is called, `GetState` answers true for
the kind of its descriptor: the loop has marked the kind before the call. -/
theorem C17_fired_at_the_call_counterexample :
    WellFormed tableMixed ∧ GetState GetStateManager "Foo" = false ∧
      GetState GetStateManager "Bar" = false ∧
      (autoDetectCapabilities dcAll tableMixed ⟨GetStateManager, []⟩).invoked =
        [(t1, fooA), (t3, barA)] ∧
      (autoDetectCapabilitiesObs dcAll tableMixed GetStateManager).2 =
        [((t1, fooA), true), ((t3, barA), true)] := by
  decide

/-- C17 (amended): after one run over the table (in any enumeration) a capability
is fired exactly when it was fired before or is the kind of a registered
descriptor reported present; every invocation of the run passes the descriptor
the trigger is registered under, that descriptor was reported present, its kind
was not fired in the state the loop had reached when it tested the entry, and
it is the only invocation for that kind in the run; the loop marks the kind
before it makes the call, so in the state each call is made in the kind is
recorded as fired. -/
theorem C17_tick_postcondition (crds order : Crds) (dc : Object → DiscoveryInterface)
    (sm : StateManager) (hwf : WellFormed crds) (hord : order.Perm crds) :
    (∀ k, GetState (autoDetectCapabilities dc order ⟨sm, []⟩).stateManager k =
      (GetState sm k ||
        crds.any (fun e => present dc e.1 && decide (e.1.GroupVersionKind.Kind = k)))) ∧
    (∀ c, c ∈ (autoDetectCapabilities dc order ⟨sm, []⟩).invoked →
      (c.2, c.1) ∈ crds ∧ lookup crds c.2 = some c.1 ∧ present dc c.2 = true ∧
      (∃ pre post, order = pre ++ (c.2, c.1) :: post ∧
        GetState (autoDetectCapabilities dc pre ⟨sm, []⟩).stateManager
          c.2.GroupVersionKind.Kind = false) ∧
      countKind (autoDetectCapabilities dc order ⟨sm, []⟩).invoked
        c.2.GroupVersionKind.Kind = 1) ∧
    ((autoDetectCapabilitiesObs dc order sm).2.map Prod.fst =
        (autoDetectCapabilities dc order ⟨sm, []⟩).invoked ∧
      (autoDetectCapabilitiesObs dc order sm).1 =
        (autoDetectCapabilities dc order ⟨sm, []⟩).stateManager ∧
      ∀ x ∈ (autoDetectCapabilitiesObs dc order sm).2, x.2 = true) := by
  refine ⟨?_, ?_, ?_⟩
  · intro k
    unfold GetState
    rw [run_state, any_perm hord]
  · intro c hc
    have hsound : (c.2, c.1) ∈ order ∧ present dc c.2 = true ∧
        sm c.2.GroupVersionKind.Kind = false := by
      rcases run_invoked_sound dc order ⟨sm, []⟩ c hc with h | h
      · simp at h
      · exact h
    have hmem : (c.2, c.1) ∈ crds := hord.mem_iff.1 hsound.1
    have hone : countKind (autoDetectCapabilities dc order ⟨sm, []⟩).invoked
        c.2.GroupVersionKind.Kind = 1 := by
      rw [countKind_run]
      have hany := any_of_mem dc order c.2 c.1 c.2.GroupVersionKind.Kind hsound.1 rfl hsound.2.1
      simp [hsound.2.2, hany]
    rcases run_invoked_moment dc order ⟨sm, []⟩ c hc with h | ⟨hp, pre, post, hsplit, hs⟩
    · simp at h
    · exact ⟨hmem, (lookup_eq_some_iff hwf c.2 c.1).2 hmem, hp, ⟨pre, post, hsplit, hs⟩, hone⟩
  · have h := obs_run dc order (sm, [])
    exact ⟨h.2.1, h.1, h.2.2 (fun x hx => by simp at hx)⟩

/-- C17 (witness): `Foo` and `Bar` registered and present; the run fires both
kinds and leaves every other kind as it was. -/
theorem C17_tick_postcondition_witness :
    GetState (autoDetectCapabilities dcAll [(barA, t3), (fooA, t1)]
        ⟨GetStateManager, []⟩).stateManager "Bar" = true ∧
      GetState (autoDetectCapabilities dcAll [(barA, t3), (fooA, t1)]
        ⟨GetStateManager, []⟩).stateManager "Baz" = false ∧
      lookup tableMixed fooA = some t1 ∧
      (autoDetectCapabilitiesObs dcAll [(barA, t3), (fooA, t1)] GetStateManager).2.map Prod.fst =
        (autoDetectCapabilities dcAll [(barA, t3), (fooA, t1)] ⟨GetStateManager, []⟩).invoked :=
  ⟨by
      rw [(C17_tick_postcondition tableMixed [(barA, t3), (fooA, t1)] dcAll GetStateManager
        (by decide) (by decide)).1 "Bar"]
      decide,
    by
      rw [(C17_tick_postcondition tableMixed [(barA, t3), (fooA, t1)] dcAll GetStateManager
        (by decide) (by decide)).1 "Baz"]
      decide,
    ((C17_tick_postcondition tableMixed [(barA, t3), (fooA, t1)] dcAll GetStateManager
        (by decide) (by decide)).2.1 (t1, fooA) (by decide)).2.1,
    (C17_tick_postcondition tableMixed [(barA, t3), (fooA, t1)] dcAll GetStateManager
        (by decide) (by decide)).2.2.1⟩

/-! ### Two descriptors of one kind -/

theorem count_pair_eq_countKind (l : List (trigger × Object)) (a b : trigger × Object)
    (k : String) (hab : a ≠ b) (ha : a.2.GroupVersionKind.Kind = k)
    (hb : b.2.GroupVersionKind.Kind = k)
    (hl : ∀ c ∈ l, c.2.GroupVersionKind.Kind = k → c = a ∨ c = b) :
    l.count a + l.count b = countKind l k := by
  induction l with
  | nil => rfl
  | cons c rest ih =>
    have ih2 := ih (fun x hx => hl x (List.mem_cons_of_mem _ hx))
    have hrest : countKind (c :: rest) k =
        (if c.2.GroupVersionKind.Kind = k then 1 else 0) + countKind rest k := by
      unfold countKind
      rw [List.filter_cons]
      by_cases hk : c.2.GroupVersionKind.Kind = k
      · simp [hk]; omega
      · simp [hk]
    rw [hrest, ← ih2, List.count_cons, List.count_cons]
    by_cases hk : c.2.GroupVersionKind.Kind = k
    · rw [if_pos hk]
      rcases hl c (List.mem_cons_self _ _) hk with h | h
      · have e1 : (c == a) = true := by simp [h]
        have e2 : (c == b) = false := by simp [h, hab]
        rw [e1, e2]
        simp only [if_true, Bool.false_eq_true, if_false]
        omega
      · have hne : ¬ b = a := fun h2 => hab h2.symm
        have e1 : (c == a) = false := by simp [h, hne]
        have e2 : (c == b) = true := by simp [h]
        rw [e1, e2]
        simp only [if_true, Bool.false_eq_true, if_false]
        omega
    · rw [if_neg hk]
      have h1 : ¬ c = a := by
        intro h; apply hk; rw [h]; exact ha
      have h2 : ¬ c = b := by
        intro h; apply hk; rw [h]; exact hb
      have e1 : (c == a) = false := by simp [h1]
      have e2 : (c == b) = false := by simp [h2]
      rw [e1, e2]
      simp only [Bool.false_eq_true, if_false]
      omega

/-- In a run that starts with the kind not fired and finds `D1` present, where
`D1` and `D2` are the only registered descriptors of the kind that are
reported present, exactly one invocation is made with `D1` or `D2`. -/
theorem run_pair_count (dc : Object → DiscoveryInterface) (crds order : Crds)
    (sm : StateManager) (D1 D2 : Object) (T1 T2 : trigger)
    (hwf : WellFormed crds) (hord : order.Perm crds)
    (h1 : (D1, T1) ∈ crds) (h2 : (D2, T2) ∈ crds) (hne : D1 ≠ D2)
    (hk : D1.GroupVersionKind.Kind = D2.GroupVersionKind.Kind)
    (hno3 : ∀ e ∈ crds, e.1.GroupVersionKind.Kind = D1.GroupVersionKind.Kind →
      present dc e.1 = true → e.1 = D1 ∨ e.1 = D2)
    (hs : sm D1.GroupVersionKind.Kind = false) (hp : present dc D1 = true) :
    (autoDetectCapabilities dc order ⟨sm, []⟩).invoked.count (T1, D1) +
      (autoDetectCapabilities dc order ⟨sm, []⟩).invoked.count (T2, D2) = 1 := by
  have hab : (T1, D1) ≠ (T2, D2) := fun h => hne (Prod.mk.inj h).2
  rw [count_pair_eq_countKind _ (T1, D1) (T2, D2) D1.GroupVersionKind.Kind hab rfl hk.symm]
  · rw [countKind_run]
    have hany := any_of_mem dc order D1 T1 D1.GroupVersionKind.Kind (hord.mem_iff.2 h1) rfl hp
    simp [hs, hany]
  · intro c hc hck
    rcases run_invoked_sound dc order ⟨sm, []⟩ c hc with h | ⟨hm, hpc, _⟩
    · simp at h
    · have hm2 : (c.2, c.1) ∈ crds := hord.mem_iff.1 hm
      rcases hno3 (c.2, c.1) hm2 hck hpc with h | h
      · left
        have h3 : (D1, c.1) ∈ crds := by
          have h4 : c.2 = D1 := h
          rw [← h4]; exact hm2
        have : T1 = c.1 := wellFormed_unique hwf h1 h3
        have h4 : c.2 = D1 := h
        rw [this, ← h4]
      · right
        have h4 : c.2 = D2 := h
        have h3 : (D2, c.1) ∈ crds := by
          rw [← h4]; exact hm2
        have : T2 = c.1 := wellFormed_unique hwf h2 h3
        rw [this, ← h4]

/-- C18 (as stated, refuted): three descriptors of kind `Foo` are registered, in
three groups, and all are reported present with `Foo` not fired. The run
reaches `fooC` first and invokes its trigger, so of the two descriptors `fooA`
and `fooB` neither has its trigger invoked, in the first tick or later. -/
theorem C18_two_of_three_counterexample :
    WellFormed [(fooC, t3), (fooA, t1), (fooB, t2)] ∧
      fooA.GroupVersionKind.Kind = fooB.GroupVersionKind.Kind ∧
      fooA.GroupVersionKind.GroupVersion ≠ fooB.GroupVersionKind.GroupVersion ∧
      present dcFoo fooA = true ∧ present dcFoo fooB = true ∧
      GetState GetStateManager "Foo" = false ∧
      (runTicks [⟨dcFoo, [(fooC, t3), (fooA, t1), (fooB, t2)]⟩,
          ⟨dcFoo, [(fooC, t3), (fooA, t1), (fooB, t2)]⟩] ⟨GetStateManager, []⟩).invoked =
        [(t3, fooC)] := by
  decide

/-- C18 (amended): two registered descriptors `D1`, `D2` of the same kind and
different group/version; tick `i` is a tick that starts with the kind not fired
and reports both present, and no third registered descriptor of that kind is
reported present in it. Then tick `i` makes exactly one invocation with `D1` or
`D2` (one of the two triggers is invoked once, the other is not), and no other
tick of the sequence, earlier or later, invokes either. -/
theorem C18_one_of_two_fires (crds : Crds) (ticks : List Tick) (sm : StateManager)
    (D1 D2 : Object) (T1 T2 : trigger)
    (hwf : WellFormed crds) (h1 : (D1, T1) ∈ crds) (h2 : (D2, T2) ∈ crds)
    (hk : D1.GroupVersionKind.Kind = D2.GroupVersionKind.Kind)
    (hgv : D1.GroupVersionKind.GroupVersion ≠ D2.GroupVersionKind.GroupVersion)
    (hord : ∀ t ∈ ticks, t.order.Perm crds)
    (i : Nat)
    (hunfired : GetState (runTicks (ticks.take i) ⟨sm, []⟩).stateManager
      D1.GroupVersionKind.Kind = false)
    (hp1 : presentAt ticks D1 i = true) (hp2 : presentAt ticks D2 i = true)
    (hno3 : ∀ e ∈ crds, e.1.GroupVersionKind.Kind = D1.GroupVersionKind.Kind →
      presentAt ticks e.1 i = true → e.1 = D1 ∨ e.1 = D2)
    (j : Nat) :
    ((tickLog ticks sm).getD j []).count (T1, D1) +
      ((tickLog ticks sm).getD j []).count (T2, D2) = if j = i then 1 else 0 := by
  have hne : D1 ≠ D2 := by
    intro h
    apply hgv
    rw [h]
  unfold GetState at hunfired
  induction ticks generalizing sm i j with
  | nil => simp [presentAt] at hp1
  | cons t ts ih =>
    have hperm : t.order.Perm crds := hord t (List.mem_cons_self _ _)
    have hord2 : ∀ u ∈ ts, u.order.Perm crds := fun u hu => hord u (List.mem_cons_of_mem _ hu)
    rw [tickLog]
    cases i with
    | zero =>
      have hpt : present t.dc D1 = true := by simpa [presentAt] using hp1
      have hs : sm D1.GroupVersionKind.Kind = false := by
        simpa [runTicks_nil] using hunfired
      cases j with
      | zero =>
        rw [List.getD_cons_zero]
        simp only [if_true]
        apply run_pair_count t.dc crds t.order sm D1 D2 T1 T2 hwf hperm h1 h2 hne hk _ hs hpt
        intro e he hek hpe
        exact hno3 e he hek (by simpa [presentAt] using hpe)
      | succ j =>
        rw [List.getD_cons_succ]
        have hfired := run_state_present t.dc t.order sm D1 T1 (hperm.mem_iff.2 h1) hpt
        have hfired2 : (autoDetectCapabilities t.dc t.order ⟨sm, []⟩).stateManager
            D2.GroupVersionKind.Kind = true := by rw [← hk]; exact hfired
        rw [List.count_eq_zero_of_not_mem (tickLog_fired ts _ D1 T1 hfired j),
          List.count_eq_zero_of_not_mem (tickLog_fired ts _ D2 T2 hfired2 j)]
        simp
    | succ i =>
      have hst : (autoDetectCapabilities t.dc t.order ⟨sm, []⟩).stateManager
          D1.GroupVersionKind.Kind = false := by
        rw [List.take_succ_cons, runTicks_cons, (runTicks_invoked _ _).2] at hunfired
        cases hc : (autoDetectCapabilities t.dc t.order ⟨sm, []⟩).stateManager
            D1.GroupVersionKind.Kind with
        | false => rfl
        | true =>
          have := runTicks_state_mono (ts.take i)
            ⟨(autoDetectCapabilities t.dc t.order ⟨sm, []⟩).stateManager, []⟩
            D1.GroupVersionKind.Kind hc
          rw [this] at hunfired
          exact absurd hunfired (by simp)
      cases j with
      | zero =>
        rw [List.getD_cons_zero]
        have hzero : countKind (autoDetectCapabilities t.dc t.order ⟨sm, []⟩).invoked
            D1.GroupVersionKind.Kind = 0 := by
          rw [countKind_run]
          rw [run_state] at hst
          simp only [Bool.or_eq_false_iff] at hst
          simp [hst.2]
        have c1 := count_le_countKind (autoDetectCapabilities t.dc t.order ⟨sm, []⟩).invoked T1 D1
        have c2 := count_le_countKind (autoDetectCapabilities t.dc t.order ⟨sm, []⟩).invoked T2 D2
        rw [← hk, hzero] at c2
        rw [hzero] at c1
        simp
        omega
      | succ j =>
        rw [List.getD_cons_succ]
        have hun2 : (runTicks (ts.take i)
            ⟨(autoDetectCapabilities t.dc t.order ⟨sm, []⟩).stateManager, []⟩).stateManager
            D1.GroupVersionKind.Kind = false := by
          rw [List.take_succ_cons, runTicks_cons, (runTicks_invoked _ _).2] at hunfired
          exact hunfired
        rw [ih _ hord2 i hun2 (by simpa [presentAt] using hp1) (by simpa [presentAt] using hp2)
          (fun e he hek hpe => hno3 e he hek (by simpa [presentAt] using hpe)) j]
        simp

/-- C18 (witness): `fooA` and `fooB` registered next to `Bar`; `Foo` is absent in
tick 1 and present in ticks 2 and 3. Tick 2 invokes `t1` with `fooA` and nothing
with `fooB`. -/
theorem C18_one_of_two_fires_witness :
    ((tickLog [⟨dcNone, [(fooA, t1), (fooB, t2), (barA, t3)]⟩,
          ⟨dcAll, [(fooA, t1), (fooB, t2), (barA, t3)]⟩,
          ⟨dcAll, [(barA, t3), (fooB, t2), (fooA, t1)]⟩] GetStateManager).getD 1 []).count
        (t1, fooA) +
      ((tickLog [⟨dcNone, [(fooA, t1), (fooB, t2), (barA, t3)]⟩,
          ⟨dcAll, [(fooA, t1), (fooB, t2), (barA, t3)]⟩,
          ⟨dcAll, [(barA, t3), (fooB, t2), (fooA, t1)]⟩] GetStateManager).getD 1 []).count
        (t2, fooB) = (if 1 = 1 then 1 else 0) ∧
    tickLog [⟨dcNone, [(fooA, t1), (fooB, t2), (barA, t3)]⟩,
        ⟨dcAll, [(fooA, t1), (fooB, t2), (barA, t3)]⟩,
        ⟨dcAll, [(barA, t3), (fooB, t2), (fooA, t1)]⟩] GetStateManager =
      [[], [(t1, fooA), (t3, barA)], []] :=
  ⟨C18_one_of_two_fires [(fooA, t1), (fooB, t2), (barA, t3)]
      [⟨dcNone, [(fooA, t1), (fooB, t2), (barA, t3)]⟩,
        ⟨dcAll, [(fooA, t1), (fooB, t2), (barA, t3)]⟩,
        ⟨dcAll, [(barA, t3), (fooB, t2), (fooA, t1)]⟩] GetStateManager fooA fooB t1 t2
      (by decide) (by decide) (by decide) (by decide) (by decide) (by decide) 1 (by decide)
      (by decide) (by decide) (by decide) 1,
    by decide⟩

/-! ### Callbacks that panic or change the Detector -/

theorem autoDetectEntryCb_world (cb : Callbacks) (dc : Object → DiscoveryInterface) (s : System)
    (e : Object × trigger) :
    (autoDetectEntryCb cb dc s e).1.world = autoDetectEntry dc s.world e := by
  unfold autoDetectEntryCb autoDetectEntry
  by_cases h1 : (resourceExists (dc e.1) e.1.GroupVersionKind.GroupVersion.String
      e.1.GroupVersionKind.Kind).1 = true
  · by_cases h2 : (GetState s.world.stateManager e.1.GroupVersionKind.Kind != true) = true
    · simp only [h1, h2, if_true]
    · simp only [h1, h2, if_true, if_false, Bool.false_eq_true]
  · simp only [h1, if_false, Bool.false_eq_true]

theorem autoDetectCapabilitiesCb_cons (cb : Callbacks) (dc : Object → DiscoveryInterface)
    (e : Object × trigger) (rest : Crds) (s : System) :
    autoDetectCapabilitiesCb cb dc (e :: rest) s =
      if (autoDetectEntryCb cb dc s e).2 then ((autoDetectEntryCb cb dc s e).1, true)
      else autoDetectCapabilitiesCb cb dc rest (autoDetectEntryCb cb dc s e).1 := rfl

/-- A run with callbacks leaves the capability state and the log that the plain
loop leaves on the part of the enumeration it got through: all of it when no
callback panicked. -/
theorem runCb_world (cb : Callbacks) (dc : Object → DiscoveryInterface) (order : Crds)
    (s : System) :
    ∃ pre post, order = pre ++ post ∧
      (autoDetectCapabilitiesCb cb dc order s).1.world = autoDetectCapabilities dc pre s.world ∧
      ((autoDetectCapabilitiesCb cb dc order s).2 = false → post = []) := by
  induction order generalizing s with
  | nil => exact ⟨[], [], rfl, rfl, fun _ => rfl⟩
  | cons e rest ih =>
    rw [autoDetectCapabilitiesCb_cons]
    by_cases hf : (autoDetectEntryCb cb dc s e).2 = true
    · rw [if_pos hf]
      refine ⟨[e], rest, rfl, ?_, ?_⟩
      · rw [autoDetectCapabilities_cons, autoDetectCapabilities_nil]
        exact autoDetectEntryCb_world cb dc s e
      · intro h
        simp at h
    · rw [if_neg hf]
      rcases ih (autoDetectEntryCb cb dc s e).1 with ⟨pre, post, hsplit, hw, hpost⟩
      refine ⟨e :: pre, post, ?_, ?_, hpost⟩
      · rw [hsplit]; rfl
      · rw [hw, autoDetectCapabilities_cons, autoDetectEntryCb_world]

/-- When a run ends by a panic, the panicking call is the last one logged and the
kind of its descriptor is recorded as fired. -/
theorem runCb_fault (cb : Callbacks) (dc : Object → DiscoveryInterface) (order : Crds)
    (s : System) (hf : (autoDetectCapabilitiesCb cb dc order s).2 = true) :
    ∃ T D, (D, T) ∈ order ∧
      (autoDetectCapabilitiesCb cb dc order s).1.world.invoked.getLast? = some (T, D) ∧
      (autoDetectCapabilitiesCb cb dc order s).1.world.stateManager
        D.GroupVersionKind.Kind = true := by
  induction order generalizing s with
  | nil => simp [autoDetectCapabilitiesCb] at hf
  | cons e rest ih =>
    rw [autoDetectCapabilitiesCb_cons] at hf ⊢
    by_cases he : (autoDetectEntryCb cb dc s e).2 = true
    · rw [if_pos he]
      refine ⟨e.2, e.1, List.mem_cons_self _ _, ?_, ?_⟩
      · unfold autoDetectEntryCb at he ⊢
        by_cases h1 : (resourceExists (dc e.1) e.1.GroupVersionKind.GroupVersion.String
            e.1.GroupVersionKind.Kind).1 = true
        · by_cases h2 : (GetState s.world.stateManager e.1.GroupVersionKind.Kind != true) = true
          · simp only [h1, h2, if_true]
            simp
          · simp [h1, h2] at he
        · simp [h1] at he
      · unfold autoDetectEntryCb at he ⊢
        by_cases h1 : (resourceExists (dc e.1) e.1.GroupVersionKind.GroupVersion.String
            e.1.GroupVersionKind.Kind).1 = true
        · by_cases h2 : (GetState s.world.stateManager e.1.GroupVersionKind.Kind != true) = true
          · simp only [h1, h2, if_true]
            simp [SetState]
          · simp [h1, h2] at he
        · simp [h1] at he
    · rw [if_neg he] at hf ⊢
      rcases ih _ hf with ⟨T, D, hm, hl, hs⟩
      exact ⟨T, D, List.mem_cons_of_mem _ hm, hl, hs⟩

theorem runTicksCb_cons (cb : Callbacks) (t : Tick) (ts : List Tick) (s : System) :
    runTicksCb cb (t :: ts) s =
      runTicksCb cb ts (autoDetectCapabilitiesCb cb t.dc t.order s).1 := rfl

/-- Consecutive runs with callbacks leave the world that consecutive plain runs
leave, each over the part of its enumeration that the run got through. -/
theorem runTicksCb_world (cb : Callbacks) (ticks : List Tick) (s : System) :
    ∃ ticks2 : List Tick, (runTicksCb cb ticks s).world = runTicks ticks2 s.world := by
  induction ticks generalizing s with
  | nil => exact ⟨[], rfl⟩
  | cons t ts ih =>
    rw [runTicksCb_cons]
    rcases ih (autoDetectCapabilitiesCb cb t.dc t.order s).1 with ⟨ticks2, h2⟩
    rcases runCb_world cb t.dc t.order s with ⟨pre, _, _, hw, _⟩
    refine ⟨⟨t.dc, pre⟩ :: ticks2, ?_⟩
    rw [h2, hw, runTicks_cons]

theorem runTicks_countKind_fired (ticks : List Tick) (w : World) (k : String)
    (h : w.stateManager k = true) :
    countKind (runTicks ticks w).invoked k = countKind w.invoked k := by
  rw [(runTicks_invoked ticks w).1, countKind_append, (runTicks_countKind ticks _ k).2 h]
  rfl

/-- C19 (as stated, refuted): one trigger `t1` is registered for `Foo` and for
`Bar`, as `AddCRDsTrigger` does, and it panics when called with `fooA`. The
first tick ends by that panic with `Foo` recorded as fired; in the next tick
the same trigger `t1` is invoked again, with `barA`. -/
theorem C19_shared_trigger_counterexample :
    AddCRDsTrigger [] [fooA, barA] t1 = tableShared ∧
      (autoDetectCapabilitiesCb cbPanicOnFoo dcAll tableShared
        ⟨NewAutoDetect, ⟨GetStateManager, []⟩⟩).2 = true ∧
      (autoDetectCapabilitiesCb cbPanicOnFoo dcAll tableShared
        ⟨NewAutoDetect, ⟨GetStateManager, []⟩⟩).1.world.invoked = [(t1, fooA)] ∧
      GetState (autoDetectCapabilitiesCb cbPanicOnFoo dcAll tableShared
        ⟨NewAutoDetect, ⟨GetStateManager, []⟩⟩).1.world.stateManager "Foo" = true ∧
      (runTicksCb cbPanicOnFoo [⟨dcAll, tableShared⟩]
        (autoDetectCapabilitiesCb cbPanicOnFoo dcAll tableShared
          ⟨NewAutoDetect, ⟨GetStateManager, []⟩⟩).1).world.invoked =
        [(t1, fooA), (t1, barA)] := by
  decide

/-- C19 (amended): when a trigger invocation panics during a run, that invocation
is the last one logged, the capability state the run leaves already records the
kind of its descriptor as fired (`SetState` came before the call and nothing
undoes it), and whatever ticks follow, with whatever callbacks, no trigger is
invoked for a descriptor of that kind again: in particular the trigger is not
invoked with that descriptor again. -/
theorem C19_marked_before_the_call (cb : Callbacks) (dc : Object → DiscoveryInterface)
    (order : Crds) (s : System)
    (hfault : (autoDetectCapabilitiesCb cb dc order s).2 = true) :
    ∃ T D, (D, T) ∈ order ∧
      (autoDetectCapabilitiesCb cb dc order s).1.world.invoked.getLast? = some (T, D) ∧
      GetState (autoDetectCapabilitiesCb cb dc order s).1.world.stateManager
        D.GroupVersionKind.Kind = true ∧
      ∀ (cb2 : Callbacks) (later : List Tick),
        countKind
            (runTicksCb cb2 later (autoDetectCapabilitiesCb cb dc order s).1).world.invoked
            D.GroupVersionKind.Kind =
          countKind (autoDetectCapabilitiesCb cb dc order s).1.world.invoked
            D.GroupVersionKind.Kind ∧
        (runTicksCb cb2 later (autoDetectCapabilitiesCb cb dc order s).1).world.invoked.count
            (T, D) =
          (autoDetectCapabilitiesCb cb dc order s).1.world.invoked.count (T, D) := by
  rcases runCb_fault cb dc order s hfault with ⟨T, D, hm, hl, hs⟩
  refine ⟨T, D, hm, hl, hs, ?_⟩
  intro cb2 later
  rcases runTicksCb_world cb2 later (autoDetectCapabilitiesCb cb dc order s).1 with ⟨ticks2, h2⟩
  rw [h2]
  constructor
  · exact runTicks_countKind_fired ticks2 _ _ hs
  · rw [(runTicks_invoked ticks2 _).1, List.count_append,
      List.count_eq_zero_of_not_mem (runTicks_count_zero ticks2 _ D T (Or.inr hs))]
    rfl

/-- C19 (witness): the trigger `t1` of `Foo` panics in the first tick; `Foo` is
recorded as fired, `Bar` was not reached, and two more ticks do not invoke
anything for `Foo` again. -/
theorem C19_marked_before_the_call_witness :
    (autoDetectCapabilitiesCb cbPanic dcAll tableMixed ⟨NewAutoDetect, ⟨GetStateManager, []⟩⟩).2 =
        true ∧
      (∃ T D, (D, T) ∈ tableMixed ∧
        (autoDetectCapabilitiesCb cbPanic dcAll tableMixed
          ⟨NewAutoDetect, ⟨GetStateManager, []⟩⟩).1.world.invoked.getLast? = some (T, D) ∧
        GetState (autoDetectCapabilitiesCb cbPanic dcAll tableMixed
          ⟨NewAutoDetect, ⟨GetStateManager, []⟩⟩).1.world.stateManager
            D.GroupVersionKind.Kind = true ∧
        ∀ (cb2 : Callbacks) (later : List Tick),
          countKind
              (runTicksCb cb2 later (autoDetectCapabilitiesCb cbPanic dcAll tableMixed
                ⟨NewAutoDetect, ⟨GetStateManager, []⟩⟩).1).world.invoked
              D.GroupVersionKind.Kind =
            countKind (autoDetectCapabilitiesCb cbPanic dcAll tableMixed
              ⟨NewAutoDetect, ⟨GetStateManager, []⟩⟩).1.world.invoked
              D.GroupVersionKind.Kind ∧
          (runTicksCb cb2 later (autoDetectCapabilitiesCb cbPanic dcAll tableMixed
            ⟨NewAutoDetect, ⟨GetStateManager, []⟩⟩).1).world.invoked.count (T, D) =
          (autoDetectCapabilitiesCb cbPanic dcAll tableMixed
            ⟨NewAutoDetect, ⟨GetStateManager, []⟩⟩).1.world.invoked.count (T, D)) ∧
      (runTicksCb cbPanic [⟨dcAll, tableMixed⟩, ⟨dcAll, tableMixed⟩, ⟨dcAll, tableMixed⟩]
        ⟨NewAutoDetect, ⟨GetStateManager, []⟩⟩).world.invoked = [(t1, fooA), (t3, barA)] :=
  ⟨by decide,
    C19_marked_before_the_call cbPanic dcAll tableMixed ⟨NewAutoDetect, ⟨GetStateManager, []⟩⟩
      (by decide),
    by decide⟩

/-- A run changes the Detector only through the callbacks: whatever the callbacks
leave as it is, the run leaves as it is. -/
theorem runCb_frame {α : Type} (f : Detector → α) (cb : Callbacks)
    (hcb : ∀ t o d, f (cb t o d).1 = f d)
    (dc : Object → DiscoveryInterface) (order : Crds) (s : System) :
    f (autoDetectCapabilitiesCb cb dc order s).1.detector = f s.detector := by
  have hentry : ∀ (u : System) (e : Object × trigger),
      f (autoDetectEntryCb cb dc u e).1.detector = f u.detector := by
    intro u e
    unfold autoDetectEntryCb
    by_cases h1 : (resourceExists (dc e.1) e.1.GroupVersionKind.GroupVersion.String
        e.1.GroupVersionKind.Kind).1 = true
    · by_cases h2 : (GetState u.world.stateManager e.1.GroupVersionKind.Kind != true) = true
      · simp only [h1, h2, if_true]
        exact hcb _ _ _
      · simp only [h1, h2, if_true, if_false, Bool.false_eq_true]
    · simp only [h1, if_false, Bool.false_eq_true]
  induction order generalizing s with
  | nil => rfl
  | cons e rest ih =>
    rw [autoDetectCapabilitiesCb_cons]
    by_cases he : (autoDetectEntryCb cb dc s e).2 = true
    · rw [if_pos he]
      exact hentry s e
    · rw [if_neg he, ih, hentry]

/-- C20: in a run whose callbacks do not modify the registration table and the
Notification Channel, both are the same after the run as before, contents and
closed flag of the channel included; with callbacks that leave the Detector
alone the whole Detector is unchanged, so the loop itself neither sends on nor
closes the channel, and the capability state and the log are those of the
plain loop. -/
theorem C20_loop_frame (cb : Callbacks) (dc : Object → DiscoveryInterface) (order : Crds)
    (s : System)
    (hcb : ∀ t o d, (cb t o d).1.crds = d.crds ∧
      (cb t o d).1.SubscriptionChannel = d.SubscriptionChannel) :
    (autoDetectCapabilitiesCb cb dc order s).1.detector.crds = s.detector.crds ∧
    (autoDetectCapabilitiesCb cb dc order s).1.detector.SubscriptionChannel =
      s.detector.SubscriptionChannel ∧
    ((∀ t o d, (cb t o d).1 = d) →
      (autoDetectCapabilitiesCb cb dc order s).1.detector = s.detector) ∧
    ((autoDetectCapabilitiesCb cb dc order s).2 = false →
      (autoDetectCapabilitiesCb cb dc order s).1.world =
        autoDetectCapabilities dc order s.world) := by
  refine ⟨runCb_frame (fun d => d.crds) cb (fun t o d => (hcb t o d).1) dc order s,
    runCb_frame (fun d => d.SubscriptionChannel) cb (fun t o d => (hcb t o d).2) dc order s,
    fun h => runCb_frame (fun d => d) cb h dc order s, ?_⟩
  intro hno
  rcases runCb_world cb dc order s with ⟨pre, post, hsplit, hw, hpost⟩
  rw [hw, hsplit, hpost hno, List.append_nil]

/-- C20 (witness): a run that fires `Foo` and `Bar` on a Detector with a value in
its channel leaves the table and the channel as they were. -/
theorem C20_loop_frame_witness :
    (autoDetectCapabilitiesCb cbQuiet dcAll tableMixed
        ⟨{ NewAutoDetect with
            crds := tableMixed,
            SubscriptionChannel :=
              { buffer := [fooA.GroupVersionKind], capacity := 1, closed := false } },
          ⟨GetStateManager, []⟩⟩).1.detector.SubscriptionChannel =
      { buffer := [fooA.GroupVersionKind], capacity := 1, closed := false } ∧
    (autoDetectCapabilitiesCb cbQuiet dcAll tableMixed
        ⟨{ NewAutoDetect with
            crds := tableMixed,
            SubscriptionChannel :=
              { buffer := [fooA.GroupVersionKind], capacity := 1, closed := false } },
          ⟨GetStateManager, []⟩⟩).1.world.invoked = [(t1, fooA), (t3, barA)] :=
  ⟨(C20_loop_frame cbQuiet dcAll tableMixed _ (fun _ _ _ => ⟨rfl, rfl⟩)).2.1, by decide⟩

/-! ### Histories of `Start` and `Stop` -/

theorem runCalls_cons (d : Detector) (c : Call) (rest : List Call) :
    runCalls d (c :: rest) = runCalls (applyCall d c).1 rest := rfl

theorem Start_of_pos (d : Detector) (interval : Duration)
    (h : 0 < wrapInt64 (interval * Second)) :
    Start d interval =
      some { d with ticker := some { period := wrapInt64 (interval * Second),
                                     stopped := false } } := by
  unfold Start NewTicker
  rw [if_neg (Int.not_le.2 h)]

theorem Start_of_not_pos (d : Detector) (interval : Duration)
    (h : ¬ 0 < wrapInt64 (interval * Second)) : Start d interval = none := by
  unfold Start NewTicker
  rw [if_pos (Int.not_lt.1 h)]

/-- After a history the timer field is set exactly when it was set before or a
`Start` of the history set it. -/
theorem runCalls_ticker (d : Detector) (history : List Call) :
    (runCalls d history).ticker.isSome = (d.ticker.isSome || timerSet history) := by
  induction history generalizing d with
  | nil => simp [runCalls, timerSet]
  | cons c rest ih =>
    rw [runCalls_cons, ih]
    cases c with
    | start interval =>
      by_cases hpos : 0 < wrapInt64 (interval * Second)
      · simp [applyCall, Start_of_pos d interval hpos, timerSet, hpos]
      · simp [applyCall, Start_of_not_pos d interval hpos, timerSet, hpos]
    | stop =>
      cases ht : d.ticker with
      | none => simp [applyCall, Stop, ht, timerSet]
      | some tk =>
        by_cases hc : d.SubscriptionChannel.closed = true
        · simp [applyCall, Stop, ht, hc, timerSet]
        · simp [applyCall, Stop, ht, hc, timerSet]

/-- After a history the channel is closed exactly when it was closed before or a
`Stop` of the history found the timer set. -/
theorem runCalls_closed (d : Detector) (history : List Call) :
    (runCalls d history).SubscriptionChannel.closed =
      (d.SubscriptionChannel.closed ||
        (if d.ticker.isSome then history.any (fun c => decide (c = Call.stop))
          else closedByStop history)) := by
  induction history generalizing d with
  | nil => simp [runCalls, closedByStop]
  | cons c rest ih =>
    rw [runCalls_cons, ih]
    cases c with
    | start interval =>
      by_cases hpos : 0 < wrapInt64 (interval * Second)
      · cases ht : d.ticker with
        | none => simp [applyCall, Start_of_pos d interval hpos, closedByStop, hpos, ht]
        | some tk => simp [applyCall, Start_of_pos d interval hpos, ht]
      · cases ht : d.ticker with
        | none => simp [applyCall, Start_of_not_pos d interval hpos, closedByStop, hpos, ht]
        | some tk => simp [applyCall, Start_of_not_pos d interval hpos, ht]
    | stop =>
      cases ht : d.ticker with
      | none => simp [applyCall, Stop, ht, closedByStop]
      | some tk =>
        by_cases hc : d.SubscriptionChannel.closed = true
        · simp [applyCall, Stop, ht, hc]
        · simp [applyCall, Stop, ht, hc]

/-- C12: on a Detector as constructed (no timer, channel open) and after any
history of `Start` and `Stop` calls, a further `Stop` completes without fault
exactly when some `Start` of the history set the timer and no `Stop` of the
history closed the channel, and it then leaves the timer halted and the channel
closed; when no `Start` set the timer it faults on the nil timer and leaves the
Detector as it was, channel open; when a `Stop` closed the channel before, it
faults on the second close, the timer halted. -/
theorem C12_when_Stop_faults (d0 : Detector) (history : List Call)
    (hnil : d0.ticker = none) (hopen : d0.SubscriptionChannel.closed = false) :
    ((Stop (runCalls d0 history)).2 = none ↔
      (timerSet history = true ∧ closedByStop history = false)) ∧
    ((Stop (runCalls d0 history)).2 = none →
      (∃ tk, (Stop (runCalls d0 history)).1.ticker = some tk ∧ tk.stopped = true) ∧
        (Stop (runCalls d0 history)).1.SubscriptionChannel.closed = true) ∧
    (timerSet history = false →
      (Stop (runCalls d0 history)).2 = some Fault.nilTicker ∧
        (Stop (runCalls d0 history)).1 = runCalls d0 history ∧
        (Stop (runCalls d0 history)).1.SubscriptionChannel.closed = false) ∧
    (closedByStop history = true →
      (Stop (runCalls d0 history)).2 = some Fault.closeOfClosedChannel ∧
        ∃ tk, (Stop (runCalls d0 history)).1.ticker = some tk ∧ tk.stopped = true) := by
  have ht := runCalls_ticker d0 history
  have hc := runCalls_closed d0 history
  rw [hnil] at ht hc
  rw [hopen] at hc
  simp only [Option.isSome_none, Bool.false_or, Bool.false_eq_true, if_false] at ht hc
  have hcs : closedByStop history = true → timerSet history = true := by
    intro h
    clear ht hc
    induction history with
    | nil => simp [closedByStop] at h
    | cons c rest ih =>
      cases c with
      | start interval =>
        by_cases hpos : 0 < wrapInt64 (interval * Second)
        · simp [timerSet, hpos]
        · simp only [closedByStop, hpos, if_false] at h
          have := ih h
          unfold timerSet at this ⊢
          rw [List.any_cons, this]
          simp
      | stop =>
        simp only [closedByStop] at h
        have := ih h
        unfold timerSet at this ⊢
        rw [List.any_cons, this]
        simp
  cases htk : (runCalls d0 history).ticker with
  | none =>
    rw [htk] at ht
    have hts : timerSet history = false := by simpa using ht.symm
    have hcb : closedByStop history = false := by
      cases h : closedByStop history with
      | false => rfl
      | true => rw [hcs h] at hts; exact absurd hts (by simp)
    rw [hcb] at hc
    simp [Stop, htk, hts, hcb, hc]
  | some tk =>
    rw [htk] at ht
    have hts : timerSet history = true := by simpa using ht.symm
    cases hcl : closedByStop history with
    | false =>
      rw [hcl] at hc
      simp [Stop, htk, hts, hc]
    | true =>
      rw [hcl] at hc
      simp [Stop, htk, hts, hc]

/-- C12 (witness): `Stop` before any `Start` faults on the nil timer; after
`Start` it completes; a second `Stop`, also after another `Start`, faults on the
closed channel. -/
theorem C12_when_Stop_faults_witness :
    (Stop (runCalls NewAutoDetect [])).2 = some Fault.nilTicker ∧
      (Stop (runCalls NewAutoDetect [Call.stop, Call.start 5])).2 = none ∧
      (Stop (runCalls NewAutoDetect [Call.start 5, Call.stop, Call.start 5])).2 =
        some Fault.closeOfClosedChannel ∧
      (Stop (runCalls NewAutoDetect [Call.stop, Call.start 5])).1.SubscriptionChannel.closed =
        true :=
  ⟨((C12_when_Stop_faults NewAutoDetect [] rfl rfl).2.2.1 (by decide)).1,
    (C12_when_Stop_faults NewAutoDetect [Call.stop, Call.start 5] rfl rfl).1.2
      ⟨by decide, by decide⟩,
    ((C12_when_Stop_faults NewAutoDetect [Call.start 5, Call.stop, Call.start 5] rfl rfl).2.2.2
      (by decide)).1,
    ((C12_when_Stop_faults NewAutoDetect [Call.stop, Call.start 5] rfl rfl).2.1
      ((C12_when_Stop_faults NewAutoDetect [Call.stop, Call.start 5] rfl rfl).1.2
        ⟨by decide, by decide⟩)).2⟩

/-! ### The background task -/

theorem Running.run_nil (st : Bool) (s : Running) : s.run st [] = s := rfl

theorem Running.run_cons (st : Bool) (s : Running) (e : Event) (rest : List Event) :
    s.run st (e :: rest) = (s.step st e).run st rest := rfl

theorem Running.run_append (st : Bool) (s : Running) (a b : List Event) :
    s.run st (a ++ b) = (s.run st a).run st b := by
  unfold Running.run
  rw [List.foldl_append]

/-- A firing timer changes at most the number of buffered values, which it takes
from 0 to 1. -/
theorem step_expiry (st : Bool) (s : Running) :
    s.step st Event.expiry = s ∨
      (s.buffered = 0 ∧ (∃ tk, s.detector.ticker = some tk ∧ tk.stopped = false) ∧
        s.step st Event.expiry = { s with buffered := 1 }) := by
  unfold Running.step
  cases ht : s.detector.ticker with
  | none => left; rfl
  | some tk =>
    cases hs : tk.stopped with
    | true => left; simp [hs]
    | false =>
      by_cases hb : s.buffered < 1
      · right
        have h0 : s.buffered = 0 := by omega
        refine ⟨h0, ⟨tk, rfl, hs⟩, ?_⟩
        simp [hs, h0]
      · left; simp [hs, hb]

/-- A timer that is running delivers a value into its empty channel. -/
theorem step_expiry_running (st : Bool) (s : Running) (tk : Ticker)
    (htk : s.detector.ticker = some tk) (hs : tk.stopped = false) (hb : s.buffered = 0) :
    s.step st Event.expiry = { s with buffered := 1 } := by
  unfold Running.step
  simp [htk, hs, hb]

theorem step_stop (st : Bool) (s : Running) :
    s.step st Event.stop =
      { s with detector := (Stop s.detector).1,
               buffered := if st || s.detector.ticker.isNone then s.buffered else 0 } := rfl

theorem step_task_immediate (st : Bool) (s : Running) (t : Tick) (h : s.pc = Pc.immediate) :
    s.step st (Event.task t) =
      { s with pc := Pc.waiting,
               world := autoDetectCapabilities t.dc t.order s.world,
               runs := s.runs + 1 } := by
  unfold Running.step
  simp [h]

theorem step_task_receive (st : Bool) (s : Running) (t : Tick) (h : s.pc = Pc.waiting)
    (hb : 0 < s.buffered) :
    s.step st (Event.task t) =
      { s with buffered := s.buffered - 1,
               consumed := s.consumed + 1,
               world := autoDetectCapabilities t.dc t.order s.world,
               runs := s.runs + 1 } := by
  unfold Running.step
  simp [h, hb]

theorem step_task_blocked (st : Bool) (s : Running) (t : Tick) (h : s.pc = Pc.waiting)
    (hb : s.buffered = 0) : s.step st (Event.task t) = s := by
  unfold Running.step
  simp [h, hb]

theorem pc_cases (p : Pc) : p = Pc.immediate ∨ p = Pc.waiting := by
  cases p
  · left; rfl
  · right; rfl

/-- The task has not consumed anything before its first run, and from then on it
has made one run more than it has consumed values of `d.ticker.C`. -/
theorem task_invariant_step (st : Bool) (s : Running) (e : Event)
    (h : (s.pc = Pc.immediate → s.runs = 0 ∧ s.consumed = 0) ∧
      (s.pc = Pc.waiting → s.runs = s.consumed + 1)) :
    ((s.step st e).pc = Pc.immediate → (s.step st e).runs = 0 ∧ (s.step st e).consumed = 0) ∧
      ((s.step st e).pc = Pc.waiting → (s.step st e).runs = (s.step st e).consumed + 1) := by
  cases e with
  | expiry =>
    rcases step_expiry st s with h1 | ⟨_, _, h1⟩
    · rw [h1]; exact h
    · rw [h1]; exact h
  | stop => exact h
  | task t =>
    rcases pc_cases s.pc with hpc | hpc
    · rw [step_task_immediate st s t hpc]
      have := h.1 hpc
      constructor
      · intro h2
        exact absurd (show Pc.waiting = Pc.immediate from h2) (by simp)
      · intro _
        show s.runs + 1 = s.consumed + 1
        omega
    · by_cases hb : 0 < s.buffered
      · rw [step_task_receive st s t hpc hb]
        have := h.2 hpc
        constructor
        · intro h2
          have h3 : s.pc = Pc.immediate := h2
          rw [hpc] at h3
          exact absurd h3 (by simp)
        · intro _
          show s.runs + 1 = s.consumed + 1 + 1
          omega
      · rw [step_task_blocked st s t hpc (by omega)]
        exact h

theorem task_invariant (st : Bool) (s : Running) (events : List Event)
    (h : (s.pc = Pc.immediate → s.runs = 0 ∧ s.consumed = 0) ∧
      (s.pc = Pc.waiting → s.runs = s.consumed + 1)) :
    ((s.run st events).pc = Pc.immediate →
        (s.run st events).runs = 0 ∧ (s.run st events).consumed = 0) ∧
      ((s.run st events).pc = Pc.waiting →
        (s.run st events).runs = (s.run st events).consumed + 1) := by
  induction events generalizing s with
  | nil => exact h
  | cons e rest ih =>
    rw [Running.run_cons]
    exact ih _ (task_invariant_step st s e h)

/-- The world of a started Detector is made by the runs of `autoDetectCapabilities`
on exactly the ticks at which the task was not blocked, in their order, and
`runs` is their number. -/
theorem task_world (st : Bool) (s : Running) (events : List Event) :
    (s.run st events).world = runTicks (ranTicks st s events) s.world ∧
      (s.run st events).runs = s.runs + (ranTicks st s events).length := by
  induction events generalizing s with
  | nil => exact ⟨rfl, rfl⟩
  | cons e rest ih =>
    rw [Running.run_cons]
    have hr := ih (s.step st e)
    cases e with
    | expiry =>
      have hsame : (s.step st Event.expiry).world = s.world ∧
          (s.step st Event.expiry).runs = s.runs := by
        rcases step_expiry st s with h1 | ⟨_, _, h1⟩
        · rw [h1]; exact ⟨rfl, rfl⟩
        · rw [h1]; exact ⟨rfl, rfl⟩
      rw [ranTicks, hr.1, hr.2, hsame.1, hsame.2]
      exact ⟨rfl, rfl⟩
    | stop =>
      rw [ranTicks, hr.1, hr.2]
      exact ⟨rfl, rfl⟩
    | task t =>
      rw [ranTicks]
      rcases pc_cases s.pc with hpc | hpc
      · rw [if_pos (Or.inl hpc), hr.1, hr.2, step_task_immediate st s t hpc, runTicks_cons,
          List.length_cons]
        exact ⟨rfl, by show s.runs + 1 + _ = _; omega⟩
      · by_cases hb : 0 < s.buffered
        · rw [if_pos (Or.inr hb), hr.1, hr.2, step_task_receive st s t hpc hb, runTicks_cons,
            List.length_cons]
          exact ⟨rfl, by show s.runs + 1 + _ = _; omega⟩
        · have hno : ¬ (s.pc = Pc.immediate ∨ 0 < s.buffered) := by
            rintro (h | h)
            · rw [hpc] at h; exact absurd h (by simp)
            · exact hb h
          rw [if_neg hno, hr.1, hr.2, step_task_blocked st s t hpc (by omega)]
          exact ⟨rfl, rfl⟩

/-- While the timer runs, a waiting task that is given one timer value per tick
makes one run of the detection per value, on those ticks in their order. -/
theorem task_receives_each (st : Bool) (s : Running) (tk : Ticker) (ts : List Tick)
    (hpc : s.pc = Pc.waiting) (hb : s.buffered = 0)
    (htk : s.detector.ticker = some tk) (hs : tk.stopped = false) :
    (s.run st (expiriesReceived ts)).world = runTicks ts s.world ∧
      (s.run st (expiriesReceived ts)).consumed = s.consumed + ts.length ∧
      (s.run st (expiriesReceived ts)).runs = s.runs + ts.length := by
  induction ts generalizing s with
  | nil => exact ⟨rfl, rfl, rfl⟩
  | cons t rest ih =>
    have hrec := step_task_receive st { s with buffered := 1 } t hpc (Nat.lt_succ_self 0)
    rw [expiriesReceived, Running.run_cons, Running.run_cons,
      step_expiry_running st s tk htk hs hb, hrec]
    have h := ih { s with buffered := 1 - 1, consumed := s.consumed + 1,
                          world := autoDetectCapabilities t.dc t.order s.world,
                          runs := s.runs + 1 } hpc rfl htk
    refine ⟨?_, ?_, ?_⟩
    · rw [h.1, runTicks_cons]
    · rw [h.2.1, List.length_cons]
      show s.consumed + 1 + rest.length = s.consumed + (rest.length + 1)
      omega
    · rw [h.2.2, List.length_cons]
      show s.runs + 1 + rest.length = s.runs + (rest.length + 1)
      omega

theorem launch_eq (d : Detector) (interval : Duration) (w : World) (s0 : Running)
    (h : launch d interval w = some s0) :
    s0.buffered = 0 ∧ s0.pc = Pc.immediate ∧ s0.world = w ∧ s0.runs = 0 ∧ s0.consumed = 0 ∧
      ∃ tk, s0.detector.ticker = some tk ∧ tk.stopped = false := by
  unfold launch at h
  cases hs : Start d interval with
  | none => rw [hs] at h; exact absurd h (by simp)
  | some d2 =>
    rw [hs] at h
    have h2 := Option.some.inj h
    rw [← h2]
    refine ⟨rfl, rfl, rfl, rfl, rfl, ?_⟩
    unfold Start at hs
    cases hn : NewTicker (wrapInt64 (interval * Second)) with
    | none => rw [hn] at hs; exact absurd hs (by simp)
    | some tk =>
      rw [hn] at hs
      have h3 := Option.some.inj hs
      rw [← h3]
      refine ⟨tk, rfl, ?_⟩
      unfold NewTicker at hn
      by_cases hle : wrapInt64 (interval * Second) ≤ 0
      · rw [if_pos hle] at hn; exact absurd hn (by simp)
      · rw [if_neg hle] at hn
        rw [← Option.some.inj hn]

/-- C11: after `Start`, on either Go release, (1) the first step of the background
task is a run of the detection on the world as `Start` found it, made with
nothing received from the timer; (2) when the task has then received `n` timer
values, one per tick of `ts`, the world is the one made by the `n + 1` runs of
`autoDetectCapabilities` on the first tick and the ticks of `ts`, in order,
with `consumed = n` and `runs = n + 1`; (3) under any interleaving of timer,
`Stop` and task events the world is the one made by the runs on exactly the
ticks at which the task was not blocked, `runs` is their number, the task has
made `consumed + 1` runs once it has made its first step and has consumed
nothing before; (4) in every state reached, a waiting task that finds a timer
value receives it and runs the detection once on the current world, and one
that finds none does nothing. -/
theorem C11_immediate_run_then_one_per_expiry (st : Bool) (d : Detector) (interval : Duration)
    (w : World) (s0 : Running) (hstart : launch d interval w = some s0)
    (events : List Event) :
    (∀ t, (s0.step st (Event.task t)).runs = 1 ∧ (s0.step st (Event.task t)).consumed = 0 ∧
      (s0.step st (Event.task t)).pc = Pc.waiting ∧
      (s0.step st (Event.task t)).world = autoDetectCapabilities t.dc t.order w) ∧
    (∀ (t0 : Tick) (ts : List Tick),
      (s0.run st (Event.task t0 :: expiriesReceived ts)).world = runTicks (t0 :: ts) w ∧
      (s0.run st (Event.task t0 :: expiriesReceived ts)).consumed = ts.length ∧
      (s0.run st (Event.task t0 :: expiriesReceived ts)).runs = ts.length + 1) ∧
    ((s0.run st events).world = runTicks (ranTicks st s0 events) w ∧
      (s0.run st events).runs = (ranTicks st s0 events).length ∧
      ((s0.run st events).pc = Pc.waiting →
        (s0.run st events).runs = (s0.run st events).consumed + 1) ∧
      ((s0.run st events).pc = Pc.immediate →
        (s0.run st events).runs = 0 ∧ (s0.run st events).consumed = 0)) ∧
    (∀ t, (s0.run st events).pc = Pc.waiting →
      (0 < (s0.run st events).buffered →
        ((s0.run st events).step st (Event.task t)).world =
            autoDetectCapabilities t.dc t.order (s0.run st events).world ∧
          ((s0.run st events).step st (Event.task t)).runs = (s0.run st events).runs + 1 ∧
          ((s0.run st events).step st (Event.task t)).consumed =
            (s0.run st events).consumed + 1 ∧
          ((s0.run st events).step st (Event.task t)).buffered =
            (s0.run st events).buffered - 1) ∧
      ((s0.run st events).buffered = 0 →
        (s0.run st events).step st (Event.task t) = s0.run st events)) := by
  rcases launch_eq d interval w s0 hstart with ⟨hb, hpc, hw, hr, hc, tk, htk, hstop⟩
  have hinv := task_invariant st s0 events ⟨fun _ => ⟨hr, hc⟩, fun h => by
    rw [hpc] at h; exact absurd h (by simp)⟩
  have hfirst : ∀ t, (s0.step st (Event.task t)).runs = 1 ∧
      (s0.step st (Event.task t)).consumed = 0 ∧
      (s0.step st (Event.task t)).pc = Pc.waiting ∧
      (s0.step st (Event.task t)).world = autoDetectCapabilities t.dc t.order w := by
    intro t
    rw [step_task_immediate st s0 t hpc]
    refine ⟨?_, hc, rfl, ?_⟩
    · show s0.runs + 1 = 1
      omega
    · show autoDetectCapabilities t.dc t.order s0.world = _
      rw [hw]
  refine ⟨hfirst, ?_, ⟨?_, ?_, hinv.2, hinv.1⟩, ?_⟩
  · intro t0 ts
    rw [Running.run_cons]
    have hf := hfirst t0
    have h := task_receives_each st (s0.step st (Event.task t0)) tk ts hf.2.2.1
      (by rw [step_task_immediate st s0 t0 hpc]; exact hb)
      (by rw [step_task_immediate st s0 t0 hpc]; exact htk) hstop
    refine ⟨?_, ?_, ?_⟩
    · rw [h.1, hf.2.2.2, runTicks_cons]
    · rw [h.2.1, hf.2.1, Nat.zero_add]
    · rw [h.2.2, hf.1]
      omega
  · rw [(task_world st s0 events).1, hw]
  · rw [(task_world st s0 events).2, hr, Nat.zero_add]
  · intro t hwait
    constructor
    · intro hpos
      rw [step_task_receive st _ t hwait hpos]
      exact ⟨rfl, rfl, rfl, rfl⟩
    · intro h0
      exact step_task_blocked st _ t hwait h0

/-- C11 (witness): `Foo` and `Bar` registered and served from the second tick on.
The immediate run finds nothing; the task then receives two timer values and
runs twice, the first of these runs invoking both triggers: three runs, two
values consumed. -/
theorem C11_immediate_run_then_one_per_expiry_witness :
    (startedMixed.run true
        (Event.task ⟨dcNone, tableMixed⟩ ::
          expiriesReceived [⟨dcAll, tableMixed⟩, ⟨dcAll, tableMixed⟩])).world =
        runTicks [⟨dcNone, tableMixed⟩, ⟨dcAll, tableMixed⟩, ⟨dcAll, tableMixed⟩]
          ⟨GetStateManager, []⟩ ∧
      (startedMixed.run true
        (Event.task ⟨dcNone, tableMixed⟩ ::
          expiriesReceived [⟨dcAll, tableMixed⟩, ⟨dcAll, tableMixed⟩])).runs = 2 + 1 ∧
      (startedMixed.run true
        (Event.task ⟨dcNone, tableMixed⟩ ::
          expiriesReceived [⟨dcAll, tableMixed⟩, ⟨dcAll, tableMixed⟩])).world.invoked =
        [(t1, fooA), (t3, barA)] :=
  ⟨((C11_immediate_run_then_one_per_expiry true { NewAutoDetect with crds := tableMixed } 1
      ⟨GetStateManager, []⟩ startedMixed rfl []).2.1 ⟨dcNone, tableMixed⟩
      [⟨dcAll, tableMixed⟩, ⟨dcAll, tableMixed⟩]).1,
    ((C11_immediate_run_then_one_per_expiry true { NewAutoDetect with crds := tableMixed } 1
      ⟨GetStateManager, []⟩ startedMixed rfl []).2.1 ⟨dcNone, tableMixed⟩
      [⟨dcAll, tableMixed⟩, ⟨dcAll, tableMixed⟩]).2.2,
    by decide⟩

/-! ### After `Stop` -/

/-- C13 (the code at the failing input): the claim is that after `Stop` has
returned no run of the detection is made and no trigger is invoked. `Foo` and
`Bar` are registered and served; `Start(1)` returns and `Stop` is called at
once, before the goroutine has been scheduled. `Stop` returns without fault,
the timer halted and the channel closed, with no run made so far; the goroutine
then takes its first step, which is a run of `autoDetectCapabilities`, and
invokes `t1` with `fooA` and `t3` with `barA`. This holds on either Go release. -/
theorem C13_run_after_Stop_returned :
    launch { NewAutoDetect with crds := tableMixed } 1 ⟨GetStateManager, []⟩ =
        some startedMixed ∧
      (Stop startedMixed.detector).2 = none ∧
      (Stop startedMixed.detector).1.ticker =
        some { period := 1000000000, stopped := true } ∧
      (Stop startedMixed.detector).1.SubscriptionChannel.closed = true ∧
      (startedMixed.run true [Event.stop]).runs = 0 ∧
      (startedMixed.run true [Event.stop]).world.invoked = [] ∧
      (startedMixed.run true [Event.stop, Event.task ⟨dcAll, tableMixed⟩]).runs = 1 ∧
      (startedMixed.run true [Event.stop, Event.task ⟨dcAll, tableMixed⟩]).world.invoked =
        [(t1, fooA), (t3, barA)] ∧
      (startedMixed.run false [Event.stop]).runs = 0 ∧
      (startedMixed.run false [Event.stop, Event.task ⟨dcAll, tableMixed⟩]).runs = 1 ∧
      (startedMixed.run false [Event.stop, Event.task ⟨dcAll, tableMixed⟩]).world.invoked =
        [(t1, fooA), (t3, barA)] :=
  ⟨rfl, by decide, by decide, by decide, by decide, by decide, by decide, by decide, by decide,
    by decide, by decide⟩

/-- Whatever the state of a started Detector and whichever Go release, the first
step of a task that has not run yet is a run of the detection: no event, `Stop`
included, takes the task out of that position. -/
theorem first_run_survives_Stop (st : Bool) (s : Running) (t : Tick)
    (h : s.pc = Pc.immediate) :
    (s.step st Event.stop).pc = Pc.immediate ∧
      ((s.step st Event.stop).step st (Event.task t)).world =
        autoDetectCapabilities t.dc t.order s.world ∧
      ((s.step st Event.stop).step st (Event.task t)).runs = s.runs + 1 := by
  have h2 : (s.step st Event.stop).pc = Pc.immediate := h
  refine ⟨h2, ?_, ?_⟩
  · rw [step_task_immediate st _ t h2]; rfl
  · rw [step_task_immediate st _ t h2]; rfl

end detector
